import Mathlib

/-!
# hub-of-hubs-repo: the build-and-serve pipeline of the chart repository server

A shallow embedding of `main.go`, `pkg/repo/config.go`, `pkg/repo/repo.go` and
`pkg/repo/server.go`.

* Go `error` values are the inductive `GoErr` (`errors.New`, and `fmt.Errorf` with `%w`).
* The file system is an abstract world `σ` passed explicitly; the helm, semver, yaml and
  `ioutil` entry points the program calls are the fields of `Deps`, so every theorem that
  quantifies over `Deps` holds whatever those libraries do.
* Every operation also returns the list of `Event`s it performed, in program order.
-/

namespace HubRepo

/-! ## Go values -/

/-- Byte slices (`[]byte`); `nil` and the empty slice are both `[]`. -/
abbrev Bytes := List Nat

/-- Go `error` values: `errors.New msg`, or an error made by `fmt.Errorf` with one `%w` verb,
which carries the formatted text and the wrapped error. -/
inductive GoErr where
  | new (msg : String)
  | wrap (msg : String) (inner : GoErr)
  deriving DecidableEq, Repr

namespace GoErr

/-- The method `Error()`. -/
def Error : GoErr → String
  | new m => m
  | wrap m _ => m

/-- The method `Unwrap()`, as `errors.Unwrap` sees it. -/
def Unwrap : GoErr → Option GoErr
  | new _ => none
  | wrap _ inner => some inner

/-- The function `errors.Is err target`: `target` occurs in the `Unwrap` chain of `err`. -/
def Is : GoErr → GoErr → Bool
  | new m, target => decide (new m = target)
  | wrap m inner, target => decide (wrap m inner = target) || Is inner target

end GoErr

/-- The call `fmt.Errorf(pre ++ "%w" ++ post, err)`. -/
def errorfW (pre : String) (err : GoErr) (post : String) : GoErr :=
  GoErr.wrap (pre ++ err.Error ++ post) err

deriving instance DecidableEq for Except

/-! ## Package `path`: `Clean` and `Join` (Unix separators) -/

/-- The pieces of a text between the occurrences of a separator. -/
def splitOnChar (sep : Char) : List Char → List (List Char)
  | [] => [[]]
  | c :: cs =>
    match splitOnChar sep cs with
    | [] => [[]]
    | x :: xs => if c = sep then [] :: x :: xs else (c :: x) :: xs

/-- The components of a path between its slashes. -/
def splitSlash (p : List Char) : List (List Char) := splitOnChar '/' p

/-- One step of `Clean` over the components kept so far (most recent first): empty and `.`
components are dropped, `..` removes the last kept component when there is one to remove,
is dropped at the root, and is kept otherwise. -/
def cleanStep (rooted : Bool) (stack : List (List Char)) (comp : List Char) :
    List (List Char) :=
  if comp = [] ∨ comp = ['.'] then stack
  else if comp = ['.', '.'] then
    match stack with
    | top :: rest => if top = ['.', '.'] then comp :: stack else rest
    | [] => if rooted then [] else [comp]
  else comp :: stack

/-- The functions `path.Clean` and, on Unix, `filepath.Clean`. -/
def pathClean (p : String) : String :=
  if p.data = [] then "."
  else
    let rooted := p.data.head? = some '/'
    let kept := ((splitSlash p.data).foldl (cleanStep rooted) []).reverse
    let body := List.intercalate ['/'] kept
    if rooted then String.mk ('/' :: body)
    else if kept = [] then "." else String.mk body

/-- The function `path.Join` for two elements: empty elements are ignored, the rest are
joined with a slash and cleaned; with nothing but empty elements the result is empty. -/
def pathJoin (a b : String) : String :=
  if a.data = [] ∧ b.data = [] then ""
  else if a.data = [] then pathClean b
  else pathClean (a ++ "/" ++ b)

/-! ## Data model -/

/-- The type `RepoConfig` of `config.go`. -/
structure RepoConfig where
  ChartDir : String
  RepoDir : String
  Version : String
  Port : Int
  Host : String
  deriving DecidableEq, Repr

/-- What the program uses of an `os.FileInfo` returned by `ioutil.ReadDir`. -/
structure FileInfo where
  Name : String
  IsDir : Bool
  deriving DecidableEq, Repr

/-- The chart metadata of helm (`chart.Metadata`): the two fields this program reads or
writes by name, and every other field of `Chart.yaml` as key and value. -/
structure Metadata where
  Name : String
  Version : String
  Other : List (String × String)
  deriving DecidableEq, Repr

/-- A loaded helm chart (`chart.Chart`): its metadata and the rest of its files. -/
structure Chart where
  Metadata : Metadata
  Files : List (String × Bytes)
  deriving DecidableEq, Repr

/-- What the program did, in program order. -/
inductive Event where
  | readDir (dir : String)
  | packageChart (src dst chartVersion : String)
  | loadDir (src : String) (ok : Bool)
  | save (ch : Chart) (dst : String) (res : Except GoErr String)
  | indexDirectory (dir url : String)
  | marshal
  | setIndex (b : Bytes)
  | lock
  | unlock
  | write (b : Bytes)
  | listenAndServe (addr : String)
  | shutdown
  | log (line : String)
  deriving DecidableEq, Repr

/-- The library entry points the program calls, over a file-system world `σ` and the type
`ι` of helm index files. `NewVersion` is `semver.NewVersion`, `ReadDir` is `ioutil.ReadDir`,
`LoadDir` is `loader.LoadDir`, `Save` is `chartutil.Save`, `IndexDirectory` is
`repo.IndexDirectory` and `Marshal` is `yaml.Marshal`. Only `Save` changes the world. -/
structure Deps (σ ι : Type) where
  NewVersion : String → Except GoErr Unit
  ReadDir : String → σ → Except GoErr (List FileInfo)
  LoadDir : String → σ → Except GoErr Chart
  Save : Chart → String → σ → Except GoErr String × σ
  IndexDirectory : String → String → σ → Except GoErr ι
  Marshal : ι → Except GoErr Bytes

/-! ## Package `net/http`, as far as the program uses it -/

/-- An incoming request: method, `URL.Path` and `RequestURI`. -/
structure Request where
  Method : String
  Path : String
  RequestURI : String
  deriving DecidableEq, Repr

/-- The state of the reply on the connection (the `http.response` behind the
`ResponseWriter` the server hands to a handler): whether the request was a `HEAD`, whether
the header is out, the status sent and the body bytes sent. -/
structure Conn where
  head : Bool
  wroteHeader : Bool
  status : Int
  body : Bytes
  deriving DecidableEq, Repr

/-- The sentinel `http.ErrBodyNotAllowed`. -/
def ErrBodyNotAllowed : GoErr :=
  GoErr.new "http: request method or response status code does not allow body"

/-- The rule `bodyAllowedForStatus` of `net/http`. -/
def bodyAllowedForStatus (status : Int) : Bool :=
  !(decide (100 ≤ status ∧ status ≤ 199) || decide (status = 204) || decide (status = 304))

/-- The call `WriteHeader` on the connection: the first call fixes the status, later calls
are ignored. -/
def Conn.WriteHeader (c : Conn) (code : Int) : Conn :=
  if c.wroteHeader then c else { c with wroteHeader := true, status := code }

/-- The call `Write` on the connection: it sends the header with status 200 first when no
header is out yet; the bytes are appended unless the status forbids a body or the request
was a `HEAD`. -/
def Conn.Write (c : Conn) (b : Bytes) : Except GoErr Nat × Conn :=
  let c1 := if c.wroteHeader then c else c.WriteHeader 200
  if bodyAllowedForStatus c1.status = false then (.error ErrBodyNotAllowed, c1)
  else if c1.head then (.ok b.length, c1)
  else (.ok b.length, { c1 with body := c1.body ++ b })

/-- The values of interface type `http.ResponseWriter` in this program: the connection's
own writer, and `StatusWriter` of `repo.go`, a struct that embeds a `ResponseWriter` and
adds the field `status`. -/
inductive ResponseWriter where
  | response (c : Conn)
  | StatusWriter (ResponseWriter : ResponseWriter) (status : Int)
  deriving DecidableEq, Repr

namespace ResponseWriter

/-- The method `WriteHeader`. On a `StatusWriter` it is the method declared in `repo.go`:
store the status, then call the embedded writer. -/
def WriteHeader : ResponseWriter → Int → ResponseWriter
  | response c, code => response (c.WriteHeader code)
  | StatusWriter w _, code => StatusWriter (w.WriteHeader code) code

/-- The method `Write`. `StatusWriter` declares none, so the call is promoted to the
embedded writer and the field `status` is not touched. -/
def Write : ResponseWriter → Bytes → Except GoErr Nat × ResponseWriter
  | response c, b => ((c.Write b).1, response (c.Write b).2)
  | StatusWriter w st, b => ((w.Write b).1, StatusWriter (w.Write b).2 st)

/-- The connection a writer ends in: what the client receives. -/
def conn : ResponseWriter → Conn
  | response c => c
  | StatusWriter w _ => w.conn

end ResponseWriter

/-- The handler values the program builds: the three methods of `RepoServer`, the library
handlers `http.FileServer(http.Dir root)`, `http.StripPrefix`, `http.NotFoundHandler` and
`http.RedirectHandler`, and `loggingMiddleware` of `repo.go`. -/
inductive Handler where
  | livenessHandler
  | readinessHandler
  | indexHandler
  | FileServer (root : String)
  | StripPrefix (pfx : String) (h : Handler)
  | loggingMiddleware (next : Handler)
  | NotFoundHandler
  | RedirectHandler (url : String) (code : Int)
  deriving DecidableEq, Repr

/-- A `http.ServeMux`: the registered patterns with their handlers, in registration order. -/
structure ServeMux where
  entries : List (String × Handler)
  deriving DecidableEq, Repr

/-- The fields of `http.Server` that `NewRepoServer` sets; the timeouts are in seconds. -/
structure HttpServer where
  Addr : String
  WriteTimeout : Nat
  ReadTimeout : Nat
  IdleTimeout : Nat
  Handler : Option ServeMux
  deriving DecidableEq, Repr

/-- The type `RepoServer` of `server.go`. The embedded `sync.Mutex` is the flag `locked`;
the two pointer fields are `none` while they are `nil`. -/
structure RepoServer where
  locked : Bool
  Index : Bytes
  Config : RepoConfig
  Server : Option HttpServer
  Router : Option ServeMux
  deriving DecidableEq, Repr

/-- What the serving side takes from outside: the answer of `http.FileServer` for a root
directory and a path (status and body), and the time a handler took, in milliseconds. -/
structure HttpEnv (σ : Type) where
  ServeFile : String → String → σ → Int × Bytes
  ElapsedMs : Request → Int

/-! ## `repo.go`: packaging -/

/-- The assignment `ch.Metadata.Version = chartVersion`. -/
def Chart.setVersion (ch : Chart) (chartVersion : String) : Chart :=
  { ch with Metadata := { ch.Metadata with Version := chartVersion } }

/-- The function `packageChart`: load the chart at `src`, stamp `chartVersion`, save it
into `dst`, log the archive name. -/
def packageChart {σ ι : Type} (d : Deps σ ι) (src dst chartVersion : String) (w : σ) :
    Except GoErr String × σ × List Event :=
  match d.LoadDir src w with
  | .error err =>
    (.error (errorfW "failed to load: " err ""), w,
      [.packageChart src dst chartVersion, .loadDir src false])
  | .ok ch =>
    match d.Save (ch.setVersion chartVersion) dst w with
    | (.error err, w1) =>
      (.error (errorfW "failed to save: " err ""), w1,
        [.packageChart src dst chartVersion, .loadDir src true,
          .save (ch.setVersion chartVersion) dst (.error err)])
    | (.ok name, w1) =>
      (.ok name, w1,
        [.packageChart src dst chartVersion, .loadDir src true,
          .save (ch.setVersion chartVersion) dst (.ok name),
          .log ("Packaged chart as " ++ name)])

/-- The `for _, f := range files` loop of `PackageCharts`. -/
def packageLoop {σ ι : Type} (d : Deps σ ι) (cfg : RepoConfig) :
    List FileInfo → σ → Except GoErr Unit × σ × List Event
  | [], w => (.ok (), w, [])
  | f :: fs, w =>
    if f.IsDir then
      match packageChart d (pathJoin cfg.ChartDir f.Name) cfg.RepoDir cfg.Version w with
      | (.error err, w1, t) =>
        (.error (errorfW ("failed to package directory " ++ f.Name ++ ": ") err ""), w1, t)
      | (.ok _, w1, t) =>
        match packageLoop d cfg fs w1 with
        | (r, w2, t2) => (r, w2, t ++ t2)
    else packageLoop d cfg fs w

/-- The method `RepoServer.PackageCharts`: validate the version, list the chart directory,
run the loop. It reads `s.Config` only. -/
def RepoServer.PackageCharts {σ ι : Type} (d : Deps σ ι) (s : RepoServer) (w : σ) :
    Except GoErr Unit × σ × List Event :=
  match d.NewVersion s.Config.Version with
  | .error err => (.error err, w, [])
  | .ok _ =>
    match d.ReadDir s.Config.ChartDir w with
    | .error err => (.error err, w, [.readDir s.Config.ChartDir])
    | .ok files =>
      match packageLoop d s.Config files w with
      | (r, w1, t) => (r, w1, .readDir s.Config.ChartDir :: t)


/-! ## `repo.go`: index -/

/-- The method `RepoServer.CreateIndex`: index the cleaned output directory under the URL
`https://<host>/charts`, serialise the index, assign it to `s.Index`. The method takes no
lock. -/
def RepoServer.CreateIndex {σ ι : Type} (d : Deps σ ι) (s : RepoServer) (w : σ) :
    Except GoErr Unit × RepoServer × List Event :=
  let url := "https://" ++ s.Config.Host ++ "/charts"
  match d.IndexDirectory (pathClean s.Config.RepoDir) url w with
  | .error err => (.error err, s, [.indexDirectory (pathClean s.Config.RepoDir) url])
  | .ok index =>
    match d.Marshal index with
    | .error err =>
      (.error err, s, [.indexDirectory (pathClean s.Config.RepoDir) url, .marshal])
    | .ok indexBytes =>
      (.ok (), { s with Index := indexBytes },
        [.indexDirectory (pathClean s.Config.RepoDir) url, .marshal, .setIndex indexBytes])

/-! ## `repo.go`: handlers -/

/-- The bytes of an ASCII string. -/
def strBytes (s : String) : Bytes := s.data.map Char.toNat

/-- The verb `%3d` of `fmt`: decimal, padded with blanks on the left to width 3. -/
def fmt3d (n : Int) : String :=
  String.mk (List.replicate (3 - (toString n).length) ' ') ++ toString n

/-- The field `status` of a `StatusWriter` (0 on a writer that is none). -/
def ResponseWriter.status : ResponseWriter → Int
  | .response _ => 0
  | .StatusWriter _ st => st

/-- The field `ResponseWriter` of a `StatusWriter`, the writer it embeds. -/
def ResponseWriter.embedded : ResponseWriter → ResponseWriter
  | .response c => .response c
  | .StatusWriter w _ => w

/-- The function `http.NotFound`. -/
def NotFound (w : ResponseWriter) : ResponseWriter :=
  ((w.WriteHeader 404).Write (strBytes "404 page not found\n")).2

/-- The method `ServeHTTP` of every handler value. The result is `none` when the handler
never returns, which happens in one place: `indexHandler` calling `s.Lock()` on a mutex
that is already locked. `loggingMiddleware` hands `next` a fresh `StatusWriter` around `w`
whose `status` field is the zero value, and logs that field after `next` returns. -/
def Handler.ServeHTTP {σ : Type} (env : HttpEnv σ) (world : σ) :
    Handler → ResponseWriter → Request → RepoServer →
      Option (ResponseWriter × RepoServer × List Event)
  | .livenessHandler, w, _, s => some (w.WriteHeader 200, s, [])
  | .readinessHandler, w, _, s => some (w.WriteHeader 200, s, [])
  | .indexHandler, w, _, s =>
    if s.locked then none
    else
      match w.Write s.Index with
      | (.error err, w1) =>
        some (w1, { s with locked := false }, [.lock, .write s.Index, .log err.Error, .unlock])
      | (.ok _, w1) =>
        some (w1, { s with locked := false }, [.lock, .write s.Index, .unlock])
  | .FileServer root, w, r, s =>
    some (((w.WriteHeader (env.ServeFile root r.Path world).1).Write
      (env.ServeFile root r.Path world).2).2, s, [])
  | .StripPrefix pfx h, w, r, s =>
    if pfx.data = [] then h.ServeHTTP env world w r s
    else if pfx.data.isPrefixOf r.Path.data then
      h.ServeHTTP env world w
        { r with Path := String.mk (r.Path.data.drop pfx.data.length) } s
    else some (NotFound w, s, [])
  | .loggingMiddleware next, w, r, s =>
    match next.ServeHTTP env world (.StatusWriter w 0) r s with
    | none => none
    | some (crw, s1, t) =>
      some (crw.embedded, s1,
        t ++ [.log (toString crw.status ++ " " ++ fmt3d (env.ElapsedMs r) ++ "ms "
          ++ r.RequestURI)])
  | .NotFoundHandler, w, _, s => some (NotFound w, s, [])
  | .RedirectHandler _ code, w, _, s => some (w.WriteHeader code, s, [])

/-! ## `repo.go`: router -/

/-- The method `ServeMux.Handle`: register a handler for a pattern. -/
def ServeMux.Handle (mux : ServeMux) (pattern : String) (h : Handler) : ServeMux :=
  { entries := mux.entries ++ [(pattern, h)] }

/-- The longest registered pattern ending in a slash that is a prefix of the path. -/
def ServeMux.longest (path : String) :
    List (String × Handler) → Option (String × Handler) → Option (String × Handler)
  | [], best => best
  | e :: es, best =>
    if e.1.data.getLast? = some '/' ∧ e.1.data.isPrefixOf path.data then
      match best with
      | none => ServeMux.longest path es (some e)
      | some b =>
        if b.1.data.length < e.1.data.length then ServeMux.longest path es (some e)
        else ServeMux.longest path es (some b)
    else ServeMux.longest path es best

/-- The matching rule of `ServeMux`: a pattern equal to the path wins; otherwise the longest
pattern that ends in a slash and is a prefix of the path. -/
def ServeMux.pathMatch (mux : ServeMux) (path : String) : Option (String × Handler) :=
  match mux.entries.find? (fun e => e.1 = path) with
  | some e => some e
  | none => ServeMux.longest path mux.entries none

/-- The function `cleanPath` of `net/http`: the canonical form of a request path. -/
def cleanPath (p : String) : String :=
  if p.data = [] then "/"
  else
    let p1 := if p.data.head? = some '/' then p else "/" ++ p
    let np := pathClean p1
    if p1.data.getLast? = some '/' ∧ np ≠ "/" then np ++ "/" else np

/-- The rule by which `ServeMux` redirects `/tree` to `/tree/`. -/
def ServeMux.shouldRedirect (mux : ServeMux) (path : String) : Bool :=
  if (mux.entries.find? (fun e => e.1 = path)).isSome then false
  else if path.data = [] then false
  else if (mux.entries.find? (fun e => e.1 = path ++ "/")).isSome then
    decide (path.data.getLast? ≠ some '/')
  else false

/-- The method `ServeMux.Handler` for the patterns of this program (no host, no `CONNECT`):
the handler that serves a request. -/
def ServeMux.Handler (mux : ServeMux) (r : Request) : Handler :=
  if mux.shouldRedirect (cleanPath r.Path) then .RedirectHandler (cleanPath r.Path ++ "/") 301
  else if cleanPath r.Path ≠ r.Path then .RedirectHandler (cleanPath r.Path) 301
  else
    match mux.pathMatch r.Path with
    | some e => e.2
    | none => .NotFoundHandler

/-- The method `ServeMux.ServeHTTP`. -/
def ServeMux.ServeHTTP {σ : Type} (env : HttpEnv σ) (world : σ) (mux : ServeMux)
    (w : ResponseWriter) (r : Request) (s : RepoServer) :
    Option (ResponseWriter × RepoServer × List Event) :=
  if r.RequestURI = "*" then some (w.WriteHeader 400, s, [])
  else (mux.Handler r).ServeHTTP env world w r s

/-- The method `RepoServer.SetupRouter`: four routes on a fresh mux; it always returns
`nil`. -/
def RepoServer.SetupRouter (s : RepoServer) : Except GoErr Unit × RepoServer :=
  let mux : ServeMux := { entries := [] }
  let fileServer := Handler.FileServer s.Config.RepoDir
  let mux := mux.Handle "/liveness" .livenessHandler
  let mux := mux.Handle "/readiness" .readinessHandler
  let mux := mux.Handle "/charts/index.yaml" (.loggingMiddleware .indexHandler)
  let mux := mux.Handle "/charts/" (.loggingMiddleware (.StripPrefix "/charts/" fileServer))
  (.ok (), { s with Router := some mux })

/-! ## `server.go` -/

/-- The function `NewRepoServer`: package, index, set up the router, fill in the
`http.Server`; the first error is returned and no server with it. -/
def NewRepoServer {σ ι : Type} (d : Deps σ ι) (repoConfig : RepoConfig) (w : σ) :
    Except GoErr RepoServer × σ × List Event :=
  let repoServer : RepoServer :=
    { locked := false, Index := [], Config := repoConfig, Server := none, Router := none }
  match repoServer.PackageCharts d w with
  | (.error err, w1, t1) => (.error err, w1, t1)
  | (.ok _, w1, t1) =>
    match repoServer.CreateIndex d w1 with
    | (.error err, _, t2) => (.error err, w1, t1 ++ t2)
    | (.ok _, s2, t2) =>
      match s2.SetupRouter with
      | (.error err, _) => (.error err, w1, t1 ++ t2)
      | (.ok _, s3) =>
        let server : HttpServer :=
          { Addr := ":" ++ toString s3.Config.Port, WriteTimeout := 30, ReadTimeout := 30,
            IdleTimeout := 30, Handler := s3.Router }
        (.ok { s3 with Server := some server }, w1, t1 ++ t2)

/-! ## `main.go` -/

/-- The sentinel `errFlagParameterIllegalValue`. -/
def errFlagParameterIllegalValue : GoErr := GoErr.new "flag parameter illegal value"

/-- The command line as `pflag.Parse` read it: for each flag the value given, if any. -/
structure Flags where
  chartDir : Option String
  repoDir : Option String
  version : Option String
  port : Option Int
  deriving DecidableEq, Repr

/-- The function `parseFlags`: defaults, overridden by the flags given; the port must lie
in 1024..65535. -/
def parseFlags (args : Flags) : Except GoErr RepoConfig :=
  let repoConfig : RepoConfig :=
    { ChartDir := args.chartDir.getD "./charts/", RepoDir := args.repoDir.getD "/repo/charts",
      Version := args.version.getD "2.5.0", Port := args.port.getD 3000, Host := "" }
  if repoConfig.Port < 1024 ∨ repoConfig.Port > 65535 then
    .error (errorfW "" errFlagParameterIllegalValue
      " - port for the helm chart repo should be in the range: 1024 - 65535")
  else .ok repoConfig

/-- The dynamically typed values inside an unstructured Kubernetes object. -/
inductive Dyn where
  | str (s : String)
  | map (fields : List (String × Dyn))
  | other

/-- The cluster as `main.go` meets it: the outcome of `rest.InClusterConfig`, of
`dynamic.NewForConfig`, and of the `Get` of the default ingress controller (its `Object`). -/
structure KubeEnv where
  InClusterConfig : Except GoErr Unit
  NewForConfig : Except GoErr Unit
  GetIngressController : Except GoErr (List (String × Dyn))

/-- The function `initKubeClient`. -/
def initKubeClient (k : KubeEnv) : Except GoErr Unit :=
  match k.InClusterConfig with
  | .error err => .error err
  | .ok _ =>
    match k.NewForConfig with
    | .error err => .error err
    | .ok dynClient => .ok dynClient

/-- The function `getRouteDomain`. -/
def getRouteDomain (k : KubeEnv) : Except GoErr String :=
  match k.GetIngressController with
  | .error err => .error err
  | .ok object =>
    match object.lookup "status" with
    | some (.map status) =>
      match status.lookup "domain" with
      | some (.str domain) => .ok domain
      | _ =>
        .error (GoErr.new "domain doesn't exist in the status of default ingresscontroller")
    | _ => .error (GoErr.new "unexpected status of default ingresscontroller")

/-- What one run of the process meets outside the file system: the runtime strings it logs,
the command line, the cluster, the error `ListenAndServe` returned in its goroutine while
`doMain` waited (if it returned), the signal delivered (if one ever is), and what
`Shutdown` returned. -/
structure MainEnv where
  GoVersion : String
  GOOS : String
  GOARCH : String
  args : Flags
  kube : KubeEnv
  ListenAndServe : Option GoErr
  signal : Option String
  Shutdown : Option GoErr

/-- The function `doMain`. The exit code is `none` when `doMain` never returns: the server
was built and no signal arrives. The goroutine around `ListenAndServe` only logs. -/
def doMain {σ ι : Type} (d : Deps σ ι) (env : MainEnv) (w : σ) :
    Option Int × σ × List Event :=
  let t0 : List Event :=
    [.log ("Go Version: " ++ env.GoVersion),
      .log ("Go OS/Arch: " ++ env.GOOS ++ "/" ++ env.GOARCH)]
  match parseFlags env.args with
  | .error err => (some 1, w, t0 ++ [.log err.Error])
  | .ok repoConfig =>
    match initKubeClient env.kube with
    | .error err => (some 1, w, t0 ++ [.log err.Error])
    | .ok _ =>
      match getRouteDomain env.kube with
      | .error err => (some 1, w, t0 ++ [.log err.Error])
      | .ok routeDomain =>
        match NewRepoServer d { repoConfig with Host := routeDomain } w with
        | (.error err, w1, t1) => (some 1, w1, t0 ++ t1 ++ [.log err.Error])
        | (.ok repoServer, w1, t1) =>
          let addr := match repoServer.Server with
            | some srv => srv.Addr
            | none => ""
          let t2 : List Event :=
            [.log ("serving on port " ++ toString repoServer.Config.Port),
              .listenAndServe addr]
            ++ (match env.ListenAndServe with
              | some err => [.log err.Error]
              | none => [])
          match env.signal with
          | none => (none, w1, t0 ++ t1 ++ t2)
          | some sig =>
            let t3 : List Event :=
              [.log ("Received signal: " ++ sig), .shutdown]
              ++ (match env.Shutdown with
                | some err => [.log err.Error]
                | none => [])
              ++ [.log "exiting..."]
            (some 0, w1, t0 ++ t1 ++ t2 ++ t3)

/-! ## The libraries, modelled from the specification -/

/-- The text before the first occurrence of a separator, and the text after it when the
separator occurs. -/
def cutAt (sep : Char) : List Char → List Char × Option (List Char)
  | [] => ([], none)
  | c :: cs =>
    if c = sep then ([], some cs)
    else ((c :: (cutAt sep cs).1), (cutAt sep cs).2)

/-- A number of a version: one decimal digit or more. -/
def isNumeric (l : List Char) : Bool := !l.isEmpty && l.all Char.isDigit

/-- The characters of an identifier of pre-release or build metadata. -/
def isIdentChar (c : Char) : Bool := c.isAlphanum || c == '-'

/-- An identifier of pre-release or build metadata: one such character or more. -/
def isIdent (l : List Char) : Bool := !l.isEmpty && l.all isIdentChar

/-- A pre-release or build metadata text, when present: identifiers separated by dots. -/
def isDotted : Option (List Char) → Bool
  | none => true
  | some l => (splitOnChar '.' l).all isIdent

/-- Modelled from the spec: the parser behind VersionValidator (§4.1), which is
`semver.NewVersion` of the library Masterminds/semver and is not under src/. A version
parses when it reads major.minor.patch, three numbers, optionally followed by `-` and a
pre-release, optionally followed by `+` and build metadata. -/
def parsesAsSemver (v : List Char) : Bool :=
  match splitOnChar '.' (cutAt '-' (cutAt '+' v).1).1 with
  | [major, minor, patch] =>
    isNumeric major && isNumeric minor && isNumeric patch
      && isDotted (cutAt '-' (cutAt '+' v).1).2 && isDotted (cutAt '+' v).2
  | _ => false

/-- The error `InvalidVersion` of the spec (`semver.ErrInvalidSemVer` in the library). -/
def ErrInvalidSemVer : GoErr := GoErr.new "Invalid Semantic Version"

/-- Modelled from the spec: VersionValidator (§4.1), `semver.NewVersion`, not under src/:
success when the string parses as a semantic version, `InvalidVersion` otherwise. -/
def semverNewVersion (v : String) : Except GoErr Unit :=
  if parsesAsSemver v.data then .ok () else .error ErrInvalidSemVer

/-- Pieces put together with a separator between them. -/
def joinWith (sep : Char) : List (List Char) → List Char
  | [] => []
  | [a] => a
  | a :: b :: t => a ++ sep :: joinWith sep (b :: t)

/-- The text of a pre-release (after `-`) or of build metadata (after `+`), when present:
the mark, then the identifiers with dots between them. -/
def renderTail (mark : Char) : Option (List (List Char)) → List Char
  | none => []
  | some ids => mark :: joinWith '.' ids

/-- The well-formed semantic versions in the words of the spec (§4.1): major.minor.patch
with optional pre-release and build metadata. -/
def WellFormedVersion (v : String) : Prop :=
  ∃ (major minor patch : List Char) (pre build : Option (List (List Char))),
    isNumeric major = true ∧ isNumeric minor = true ∧ isNumeric patch = true ∧
    (∀ ids, pre = some ids → ids ≠ [] ∧ ∀ i ∈ ids, isIdent i = true) ∧
    (∀ ids, build = some ids → ids ≠ [] ∧ ∀ i ∈ ids, isIdent i = true) ∧
    v.data = (major ++ '.' :: (minor ++ '.' :: patch)) ++ renderTail '-' pre
      ++ renderTail '+' build

/-- One entry of an index document: the archive file and its retrieval URL. -/
structure IndexEntry where
  File : String
  URL : String
  deriving DecidableEq, Repr

/-- A small file system: the listing of each source directory, the chart each bundle
directory loads as, and the archive files present, each with its directory. -/
structure MemFS where
  dirs : List (String × List FileInfo)
  sources : List (String × Chart)
  out : List (String × String)
  deriving DecidableEq, Repr

/-- Modelled from the spec: IndexBuilder (§4.4), `repo.IndexDirectory` of helm, not under
src/: scan the output directory, one entry per archive file there, each entry's retrieval
location being `baseURL/filename`. -/
def specIndexDirectory (dir baseURL : String) (fs : MemFS) : Except GoErr (List IndexEntry) :=
  .ok (((fs.out.filter (fun a => a.1 = dir)).map (fun a => a.2)).map
    (fun file => { File := file, URL := baseURL ++ "/" ++ file }))

/-- Modelled from the spec: the serialisation of an index document (§4.4), `yaml.Marshal`,
not under src/: here one line per entry, the file name, a blank, the URL. -/
def specMarshal (index : List IndexEntry) : Except GoErr Bytes :=
  .ok (index.foldr (fun e acc => strBytes (e.File ++ " " ++ e.URL ++ "\n") ++ acc) [])

/-- The libraries over the small file system: a missing directory or bundle is an error, a
save adds the archive `<name>-<version>.tgz` to the destination and returns its path. -/
def memDeps : Deps MemFS (List IndexEntry) where
  NewVersion := semverNewVersion
  ReadDir := fun dir fs =>
    match fs.dirs.lookup dir with
    | some l => .ok l
    | none => .error (GoErr.new ("open " ++ dir ++ ": no such file or directory"))
  LoadDir := fun src fs =>
    match fs.sources.lookup src with
    | some ch => .ok ch
    | none => .error (GoErr.new "Chart.yaml file is missing")
  Save := fun ch dst fs =>
    (.ok (dst ++ "/" ++ ch.Metadata.Name ++ "-" ++ ch.Metadata.Version ++ ".tgz"),
      { fs with out := fs.out ++ [(dst, ch.Metadata.Name ++ "-" ++ ch.Metadata.Version ++ ".tgz")] })
  IndexDirectory := specIndexDirectory
  Marshal := specMarshal

/-- A chart named `name` that declares version `version`. -/
def demoChart (name version : String) : Chart :=
  { Metadata := { Name := name, Version := version, Other := [("apiVersion", "v2")] },
    Files := [("templates/cm.yaml", [107, 58, 32, 118])] }

/-- A source root with two bundles, `a` and `b`, and one plain file. -/
def demoFS : MemFS :=
  { dirs := [("./charts/", [⟨"README.md", false⟩, ⟨"a", true⟩, ⟨"b", true⟩])],
    sources := [("charts/a", demoChart "a" "0.1.0"), ("charts/b", demoChart "b" "7.7.7")],
    out := [] }

/-- The configuration `parseFlags` gives without flags, with host `host`. -/
def demoConfig : RepoConfig :=
  { ChartDir := "./charts/", RepoDir := "/repo/charts", Version := "2.5.0", Port := 3000,
    Host := "host" }

/-- A server value as `NewRepoServer` starts from, over a configuration. -/
def freshServer (cfg : RepoConfig) : RepoServer :=
  { locked := false, Index := [], Config := cfg, Server := none, Router := none }

/-! ## Reading a trace -/

/-- The invocations of `packageChart` in a trace: source, destination, version. -/
def packageCalls : List Event → List (String × String × String)
  | [] => []
  | .packageChart src dst v :: t => (src, dst, v) :: packageCalls t
  | _ :: t => packageCalls t

/-- The charts handed to `chartutil.Save` in a trace, each with its destination. -/
def savedCharts : List Event → List (Chart × String)
  | [] => []
  | .save ch dst _ :: t => (ch, dst) :: savedCharts t
  | _ :: t => savedCharts t

/-- The archives produced in a trace: the names returned by the successful saves, each
with the directory it was saved into. -/
def archives : List Event → List (String × String)
  | [] => []
  | .save _ dst (.ok name) :: t => (dst, name) :: archives t
  | _ :: t => archives t

/-- An event that reports a failed load or a failed save. -/
def Event.failed : Event → Bool
  | .loadDir _ false => true
  | .save _ _ (.error _) => true
  | _ => false

/-- The directory entries of a listing. -/
def directories (files : List FileInfo) : List FileInfo := files.filter (fun f => f.IsDir)

/-- The arguments `PackageCharts` passes to `packageChart` for a directory entry. -/
def callFor (cfg : RepoConfig) (f : FileInfo) : String × String × String :=
  (pathJoin cfg.ChartDir f.Name, cfg.RepoDir, cfg.Version)

/-! ## Worlds and requests of the examples, and further readings of a trace -/

/-- A source root where the second of three bundles, `c`, has no `Chart.yaml`. -/
def brokenFS : MemFS :=
  { dirs := [("./charts/", [⟨"a", true⟩, ⟨"c", true⟩, ⟨"b", true⟩])],
    sources := [("charts/a", demoChart "a" "0.1.0"), ("charts/b", demoChart "b" "7.7.7")],
    out := [] }

/-- The cluster of the examples: the default ingress controller reports the domain
`host`. -/
def demoKube : KubeEnv :=
  { InClusterConfig := .ok (), NewForConfig := .ok (),
    GetIngressController := .ok [("status", .map [("domain", .str "host")])] }

/-- A run of the examples: no flags, the cluster above, `ListenAndServe` still serving
when `SIGTERM` arrives, and a clean `Shutdown`. -/
def demoEnv : MainEnv :=
  { GoVersion := "go1.17", GOOS := "linux", GOARCH := "amd64",
    args := { chartDir := none, repoDir := none, version := none, port := none },
    kube := demoKube, ListenAndServe := none, signal := some "terminated", Shutdown := none }

/-- The event of starting the listener. -/
def Event.isListen : Event → Bool
  | .listenAndServe _ => true
  | _ => false

/-- The events of packaging: listing, invoking, loading, saving, logging. -/
def Event.isPackaging : Event → Bool
  | .readDir _ => true
  | .packageChart _ _ _ => true
  | .loadDir _ _ => true
  | .save _ _ _ => true
  | .log _ => true
  | _ => false

/-- The reply state of a connection on which nothing was sent yet. -/
def Conn.fresh (r : Request) : Conn :=
  { head := decide (r.Method = "HEAD"), wroteHeader := false, status := 0, body := [] }

/-- The serving side of the examples: a file is served from the archives present, every
handler takes 5 ms. -/
def demoHttp : HttpEnv MemFS :=
  { ServeFile := fun root path fs =>
      if (root, path) ∈ fs.out then (200, strBytes path) else (404, strBytes "404 page not found\n"),
    ElapsedMs := fun _ => 5 }

/-- The request `GET /charts/index.yaml`. -/
def getIndex : Request :=
  { Method := "GET", Path := "/charts/index.yaml", RequestURI := "/charts/index.yaml" }

/-- The server `NewRepoServer` builds over the source root of the examples. -/
def demoServer : RepoServer :=
  match NewRepoServer memDeps demoConfig demoFS with
  | (.ok srv, _, _) => srv
  | _ => freshServer demoConfig

/-- The router of that server. -/
def demoRouter : ServeMux :=
  match demoServer.Router with
  | some mux => mux
  | none => { entries := [] }

/-- Whether every assignment to `Index` in a trace happens between a `Lock` and the
following `Unlock` of that trace; `held` tells whether the lock is held at the start. -/
def assignsUnderLock : Bool → List Event → Bool
  | _, [] => true
  | _, .lock :: t => assignsUnderLock true t
  | _, .unlock :: t => assignsUnderLock false t
  | held, .setIndex _ :: t => held && assignsUnderLock held t
  | held, _ :: t => assignsUnderLock held t

/-- Whether every read of `Index` for a reply in a trace happens between a `Lock` and the
following `Unlock` of that trace. -/
def readsUnderLock : Bool → List Event → Bool
  | _, [] => true
  | _, .lock :: t => readsUnderLock true t
  | _, .unlock :: t => readsUnderLock false t
  | held, .write _ :: t => held && readsUnderLock held t
  | held, _ :: t => readsUnderLock held t

/-- An output directory that holds the archives `a-1.0.0` and `b-2.0.0`. -/
def archivedFS : MemFS :=
  { dirs := [], sources := [],
    out := [("/repo/charts", "a-1.0.0"), ("/repo/charts", "b-2.0.0")] }

/-! ## Lemmas on traces -/

theorem packageCalls_append (a b : List Event) :
    packageCalls (a ++ b) = packageCalls a ++ packageCalls b := by
  induction a with
  | nil => rfl
  | cons e t ih => cases e <;> simp [packageCalls, ih]

theorem savedCharts_append (a b : List Event) :
    savedCharts (a ++ b) = savedCharts a ++ savedCharts b := by
  induction a with
  | nil => rfl
  | cons e t ih => cases e <;> simp [savedCharts, ih]

theorem archives_append (a b : List Event) :
    archives (a ++ b) = archives a ++ archives b := by
  induction a with
  | nil => rfl
  | cons e t ih =>
    cases e with
    | save ch dst res => cases res <;> simp [archives, ih]
    | _ => simp [archives, ih]

/-- The shape of one `packageChart` run: one invocation, at most one save, and the save
carries the loaded chart with the version replaced. -/
theorem packageChart_shape {σ ι : Type} (d : Deps σ ι) (src dst v : String) (w : σ) :
    packageCalls (packageChart d src dst v w).2.2 = [(src, dst, v)] ∧
    (∀ c ∈ savedCharts (packageChart d src dst v w).2.2, c.1.Metadata.Version = v ∧ c.2 = dst) ∧
    (∀ name, (packageChart d src dst v w).1 = .ok name →
      archives (packageChart d src dst v w).2.2 = [(dst, name)] ∧
      ∀ e ∈ (packageChart d src dst v w).2.2, e.failed = false) ∧
    (∀ err, (packageChart d src dst v w).1 = .error err →
      archives (packageChart d src dst v w).2.2 = [] ∧
      ∃ e ∈ (packageChart d src dst v w).2.2, e.failed = true) := by
  unfold packageChart
  cases hl : d.LoadDir src w with
  | error err => simp [packageCalls, savedCharts, archives, Event.failed]
  | ok ch =>
    cases hs : d.Save (ch.setVersion v) dst w with
    | mk res w1 =>
      cases res with
      | error err =>
        simp only [hs]
        simp [packageCalls, savedCharts, archives, Event.failed, Chart.setVersion]
      | ok name =>
        simp only [hs]
        simp [packageCalls, savedCharts, archives, Event.failed, Chart.setVersion]

/-! ## Lemmas on the packaging loop -/

theorem packageLoop_file {σ ι : Type} (d : Deps σ ι) (cfg : RepoConfig) (f : FileInfo)
    (fs : List FileInfo) (w : σ) (hf : f.IsDir = false) :
    packageLoop d cfg (f :: fs) w = packageLoop d cfg fs w := by
  simp [packageLoop, hf]

theorem packageLoop_dir_error {σ ι : Type} (d : Deps σ ι) (cfg : RepoConfig) (f : FileInfo)
    (fs : List FileInfo) (w w1 : σ) (err : GoErr) (t : List Event) (hf : f.IsDir = true)
    (hp : packageChart d (pathJoin cfg.ChartDir f.Name) cfg.RepoDir cfg.Version w
      = (.error err, w1, t)) :
    packageLoop d cfg (f :: fs) w
      = (.error (errorfW ("failed to package directory " ++ f.Name ++ ": ") err ""), w1, t) := by
  simp [packageLoop, hf, hp]

theorem packageLoop_dir_ok {σ ι : Type} (d : Deps σ ι) (cfg : RepoConfig) (f : FileInfo)
    (fs : List FileInfo) (w w1 : σ) (name : String) (t : List Event) (hf : f.IsDir = true)
    (hp : packageChart d (pathJoin cfg.ChartDir f.Name) cfg.RepoDir cfg.Version w
      = (.ok name, w1, t)) :
    packageLoop d cfg (f :: fs) w
      = ((packageLoop d cfg fs w1).1, (packageLoop d cfg fs w1).2.1,
          t ++ (packageLoop d cfg fs w1).2.2) := by
  simp [packageLoop, hf, hp]

/-- Running the loop over `pre ++ post` when the loop over `pre` succeeds: the loop goes on
over `post` from the world `pre` left. -/
theorem packageLoop_append_ok {σ ι : Type} (d : Deps σ ι) (cfg : RepoConfig)
    (pre post : List FileInfo) (w w1 : σ) (t1 : List Event)
    (h : packageLoop d cfg pre w = (.ok (), w1, t1)) :
    packageLoop d cfg (pre ++ post) w
      = ((packageLoop d cfg post w1).1, (packageLoop d cfg post w1).2.1,
          t1 ++ (packageLoop d cfg post w1).2.2) := by
  induction pre generalizing w t1 with
  | nil =>
    simp only [packageLoop, Prod.mk.injEq] at h
    obtain ⟨-, rfl, rfl⟩ := h
    simp
  | cons f fs ih =>
    cases hf : f.IsDir with
    | false =>
      rw [packageLoop_file d cfg f fs w hf] at h
      rw [List.cons_append, packageLoop_file d cfg f (fs ++ post) w hf]
      exact ih w t1 h
    | true =>
      cases hp : packageChart d (pathJoin cfg.ChartDir f.Name) cfg.RepoDir cfg.Version w with
      | mk res rest =>
        obtain ⟨w0, t0⟩ := rest
        cases res with
        | error err =>
          rw [packageLoop_dir_error d cfg f fs w w0 err t0 hf hp] at h
          simp at h
        | ok name =>
          rw [packageLoop_dir_ok d cfg f fs w w0 name t0 hf hp] at h
          rw [List.cons_append, packageLoop_dir_ok d cfg f (fs ++ post) w w0 name t0 hf hp]
          simp only [Prod.mk.injEq] at h
          obtain ⟨h1, h2, h3⟩ := h
          have h' : packageLoop d cfg fs w0 = (.ok (), w1, (packageLoop d cfg fs w0).2.2) := by
            rw [← h1, ← h2]
          rw [ih w0 _ h', ← h3]
          simp

/-- The invocations of the loop are those of the first `k` directory entries, in listing
order, one each; every chart saved carries the configured version and goes to `RepoDir`;
success means all `N` directories were invoked, `N` archives were produced and nothing
failed; an error means something failed and fewer than `N` archives were produced. -/
theorem packageLoop_spec {σ ι : Type} (d : Deps σ ι) (cfg : RepoConfig)
    (files : List FileInfo) (w : σ) :
    (∃ k, k ≤ (directories files).length ∧
      packageCalls (packageLoop d cfg files w).2.2
        = ((directories files).take k).map (callFor cfg)) ∧
    (∀ c ∈ savedCharts (packageLoop d cfg files w).2.2,
      c.1.Metadata.Version = cfg.Version ∧ c.2 = cfg.RepoDir) ∧
    (∀ a ∈ archives (packageLoop d cfg files w).2.2, a.1 = cfg.RepoDir) ∧
    ((packageLoop d cfg files w).1 = .ok () →
      packageCalls (packageLoop d cfg files w).2.2 = (directories files).map (callFor cfg) ∧
      (archives (packageLoop d cfg files w).2.2).length = (directories files).length ∧
      ∀ e ∈ (packageLoop d cfg files w).2.2, e.failed = false) ∧
    (∀ err, (packageLoop d cfg files w).1 = .error err →
      (archives (packageLoop d cfg files w).2.2).length < (directories files).length ∧
      ∃ e ∈ (packageLoop d cfg files w).2.2, e.failed = true) := by
  induction files generalizing w with
  | nil =>
    refine ⟨⟨0, ?_⟩, ?_⟩ <;> simp [packageLoop, directories, packageCalls, savedCharts, archives]
  | cons f fs ih =>
    cases hf : f.IsDir with
    | false =>
      rw [packageLoop_file d cfg f fs w hf]
      have hd : directories (f :: fs) = directories fs := by simp [directories, hf]
      rw [hd]
      exact ih w
    | true =>
      have hd : directories (f :: fs) = f :: directories fs := by simp [directories, hf]
      have hsh := packageChart_shape d (pathJoin cfg.ChartDir f.Name) cfg.RepoDir cfg.Version w
      cases hp : packageChart d (pathJoin cfg.ChartDir f.Name) cfg.RepoDir cfg.Version w with
      | mk res rest =>
        obtain ⟨w0, t0⟩ := rest
        rw [hp] at hsh
        obtain ⟨hc, hsv, hok, herr⟩ := hsh
        simp only at hc hsv hok herr
        cases res with
        | error err =>
          rw [packageLoop_dir_error d cfg f fs w w0 err t0 hf hp, hd]
          obtain ⟨ha, e, he, hfail⟩ := herr err rfl
          refine ⟨⟨1, by simp, by simp [hc, callFor]⟩, hsv, by simp [ha], by simp, ?_⟩
          intro err2 _
          exact ⟨by simp [ha], e, he, hfail⟩
        | ok name =>
          rw [packageLoop_dir_ok d cfg f fs w w0 name t0 hf hp, hd]
          obtain ⟨ha, hnf⟩ := hok name rfl
          obtain ⟨⟨k, hk, hcalls⟩, hsv2, har2, hok2, herr2⟩ := ih w0
          refine ⟨⟨k + 1, by simpa using hk, ?_⟩, ?_, ?_, ?_, ?_⟩
          · simp [packageCalls_append, hc, hcalls, callFor]
          · intro c hcm
            simp only [savedCharts_append, List.mem_append] at hcm
            rcases hcm with h | h
            · exact hsv c h
            · exact hsv2 c h
          · intro a ham
            simp only [archives_append, List.mem_append, ha, List.mem_singleton] at ham
            rcases ham with h | h
            · simp [h]
            · exact har2 a h
          · intro hr
            obtain ⟨h1, h2, h3⟩ := hok2 hr
            refine ⟨by simp [packageCalls_append, hc, h1, callFor],
              by simp [archives_append, ha, h2], ?_⟩
            intro e hem
            simp only [List.mem_append] at hem
            rcases hem with h | h
            · exact hnf e h
            · exact h3 e h
          · intro err2 hr
            obtain ⟨h1, e, he, hfail⟩ := herr2 err2 hr
            refine ⟨by simp [archives_append, ha]; omega, e, ?_, hfail⟩
            simp [he]

theorem PackageCharts_eq_loop {σ ι : Type} (d : Deps σ ι) (s : RepoServer) (w : σ)
    (files : List FileInfo) (hv : d.NewVersion s.Config.Version = .ok ())
    (hr : d.ReadDir s.Config.ChartDir w = .ok files) :
    s.PackageCharts d w
      = ((packageLoop d s.Config files w).1, (packageLoop d s.Config files w).2.1,
          .readDir s.Config.ChartDir :: (packageLoop d s.Config files w).2.2) := by
  simp [RepoServer.PackageCharts, hv, hr]

theorem errorfW_Error (pre : String) (err : GoErr) :
    (errorfW pre err "").Error = pre ++ err.Error := by
  simp [errorfW, GoErr.Error]

theorem errorfW_Is_inner (pre post : String) (err cause : GoErr) (h : err.Is cause = true) :
    (errorfW pre err post).Is cause = true := by
  simp [errorfW, GoErr.Is, h]

theorem GoErr.Is_self (e : GoErr) : e.Is e = true := by
  cases e <;> simp [GoErr.Is]

/-! ## Packaging: the claims -/

/-- C1: with a valid version and a source root listing `files`, `PackageCharts` invokes
`packageChart` only on directory entries, in listing order and at most once each, always on
`path.Join(ChartDir, name)` with the configured `RepoDir` and `Version`; and when no load
and no save fails it returns no error, has invoked `packageChart` exactly once for each of
the N directory entries, and has produced exactly N archives, all in `RepoDir`; the
entries that are not directories take no part. -/
theorem PackageCharts_packages_each_directory {σ ι : Type} (d : Deps σ ι) (s : RepoServer)
    (w : σ) (files : List FileInfo) (hv : d.NewVersion s.Config.Version = .ok ())
    (hr : d.ReadDir s.Config.ChartDir w = .ok files) :
    (∃ k, k ≤ (directories files).length ∧
      packageCalls (s.PackageCharts d w).2.2
        = ((directories files).take k).map
            (fun f => (pathJoin s.Config.ChartDir f.Name, s.Config.RepoDir, s.Config.Version))) ∧
    ((∀ e ∈ (s.PackageCharts d w).2.2, e.failed = false) →
      (s.PackageCharts d w).1 = .ok () ∧
      packageCalls (s.PackageCharts d w).2.2
        = (directories files).map
            (fun f => (pathJoin s.Config.ChartDir f.Name, s.Config.RepoDir, s.Config.Version)) ∧
      (archives (s.PackageCharts d w).2.2).length = (directories files).length ∧
      ∀ a ∈ archives (s.PackageCharts d w).2.2, a.1 = s.Config.RepoDir) := by
  obtain ⟨⟨k, hk, hcalls⟩, -, harch, hok, herr⟩ := packageLoop_spec d s.Config files w
  rw [PackageCharts_eq_loop d s w files hv hr]
  refine ⟨⟨k, hk, by simpa [packageCalls, callFor] using hcalls⟩, ?_⟩
  intro hnf
  have hres : (packageLoop d s.Config files w).1 = .ok () := by
    cases hres : (packageLoop d s.Config files w).1 with
    | ok u => rfl
    | error err =>
      obtain ⟨-, e, he, hfail⟩ := herr err hres
      have := hnf e (List.mem_cons_of_mem _ he)
      simp [hfail] at this
  obtain ⟨h1, h2, -⟩ := hok hres
  refine ⟨hres, by simpa [packageCalls, callFor] using h1, by simpa [archives] using h2, ?_⟩
  simpa [archives] using harch

/-- C1, at a source root with the bundles `a` and `b` and the file `README.md`. -/
theorem PackageCharts_packages_each_directory_witness :
    ((freshServer demoConfig).PackageCharts memDeps demoFS).1 = .ok () ∧
    packageCalls ((freshServer demoConfig).PackageCharts memDeps demoFS).2.2
      = [("charts/a", "/repo/charts", "2.5.0"), ("charts/b", "/repo/charts", "2.5.0")] ∧
    (archives ((freshServer demoConfig).PackageCharts memDeps demoFS).2.2).length = 2 :=
  have h := (PackageCharts_packages_each_directory memDeps (freshServer demoConfig) demoFS
    [⟨"README.md", false⟩, ⟨"a", true⟩, ⟨"b", true⟩] (by decide) (by decide)).2 (by decide)
  ⟨h.1, h.2.1, h.2.2.1⟩

/-- An error of `packageChart` wraps the error the library returned, under the text
`failed to load: ` or `failed to save: `. -/
theorem packageChart_error_cause {σ ι : Type} (d : Deps σ ι) (src dst v : String) (w w2 : σ)
    (err : GoErr) (t : List Event) (h : packageChart d src dst v w = (.error err, w2, t)) :
    ∃ cause, err.Unwrap = some cause ∧
      ((d.LoadDir src w = .error cause ∧ err.Error = "failed to load: " ++ cause.Error) ∨
       (∃ ch, d.LoadDir src w = .ok ch ∧ (d.Save (ch.setVersion v) dst w).1 = .error cause ∧
          err.Error = "failed to save: " ++ cause.Error)) := by
  unfold packageChart at h
  cases hl : d.LoadDir src w with
  | error e0 =>
    simp only [hl, Prod.mk.injEq, Except.error.injEq] at h
    obtain ⟨rfl, -, -⟩ := h
    exact ⟨e0, rfl, Or.inl ⟨rfl, errorfW_Error _ _⟩⟩
  | ok ch =>
    simp only [hl] at h
    cases hs : d.Save (ch.setVersion v) dst w with
    | mk res w1 =>
      cases res with
      | error e0 =>
        simp only [hs, Prod.mk.injEq, Except.error.injEq] at h
        obtain ⟨rfl, -, -⟩ := h
        exact ⟨e0, rfl, Or.inr ⟨ch, rfl, by simp [hs], errorfW_Error _ _⟩⟩
      | ok name => simp [hs] at h

/-- C2: with a valid version and a source root listing `files`, when the entries before a
directory entry `f` package successfully and `packageChart` fails on `f`, `PackageCharts`
stops there: it returns the error `failed to package directory <f.Name>: <err>`, which
wraps the error `err` of `packageChart`, itself `failed to load: ` or `failed to save: `
around the error that `loader.LoadDir` or `chartutil.Save` returned; `packageChart` was
invoked on the directories before `f` and on `f`, and on no later entry. And a pass either
succeeds with all N directories packaged, or returns an error with fewer than N archives
produced and a failed load or save in its trace. -/
theorem PackageCharts_aborts_at_first_failure {σ ι : Type} (d : Deps σ ι) (s : RepoServer)
    (w : σ) (files : List FileInfo) (hv : d.NewVersion s.Config.Version = .ok ())
    (hr : d.ReadDir s.Config.ChartDir w = .ok files) :
    (∀ (pre post : List FileInfo) (f : FileInfo) (w1 w2 : σ) (t1 t2 : List Event)
        (err : GoErr),
      files = pre ++ f :: post →
      packageLoop d s.Config pre w = (.ok (), w1, t1) →
      f.IsDir = true →
      packageChart d (pathJoin s.Config.ChartDir f.Name) s.Config.RepoDir s.Config.Version w1
        = (.error err, w2, t2) →
      ∃ final cause,
        s.PackageCharts d w = (.error final, w2, .readDir s.Config.ChartDir :: (t1 ++ t2)) ∧
        final.Error = "failed to package directory " ++ f.Name ++ ": " ++ err.Error ∧
        final.Unwrap = some err ∧ err.Unwrap = some cause ∧ final.Is cause = true ∧
        ((d.LoadDir (pathJoin s.Config.ChartDir f.Name) w1 = .error cause ∧
            err.Error = "failed to load: " ++ cause.Error) ∨
          (∃ ch, d.LoadDir (pathJoin s.Config.ChartDir f.Name) w1 = .ok ch ∧
            (d.Save (ch.setVersion s.Config.Version) s.Config.RepoDir w1).1 = .error cause ∧
            err.Error = "failed to save: " ++ cause.Error)) ∧
        packageCalls (s.PackageCharts d w).2.2
          = (directories pre ++ [f]).map
              (fun g => (pathJoin s.Config.ChartDir g.Name, s.Config.RepoDir,
                s.Config.Version))) ∧
    (((s.PackageCharts d w).1 = .ok () ∧
        (archives (s.PackageCharts d w).2.2).length = (directories files).length) ∨
      (∃ e, (s.PackageCharts d w).1 = .error e ∧
        (archives (s.PackageCharts d w).2.2).length < (directories files).length ∧
        ∃ ev ∈ (s.PackageCharts d w).2.2, ev.failed = true)) := by
  constructor
  · intro pre post f w1 w2 t1 t2 err hfiles hpre hf hfail
    obtain ⟨cause, hun, hcause⟩ := packageChart_error_cause d _ _ _ w1 w2 err t2 hfail
    have hpk : s.PackageCharts d w
        = (.error (errorfW ("failed to package directory " ++ f.Name ++ ": ") err ""), w2,
            .readDir s.Config.ChartDir :: (t1 ++ t2)) := by
      rw [PackageCharts_eq_loop d s w files hv hr, hfiles,
        packageLoop_append_ok d s.Config pre (f :: post) w w1 t1 hpre,
        packageLoop_dir_error d s.Config f post w1 w2 err t2 hf hfail]
    have hcalls1 : packageCalls t1 = (directories pre).map (callFor s.Config) := by
      have := (packageLoop_spec d s.Config pre w).2.2.2.1
      rw [hpre] at this
      exact (this rfl).1
    have hcalls2 : packageCalls t2 = [callFor s.Config f] := by
      have := (packageChart_shape d (pathJoin s.Config.ChartDir f.Name) s.Config.RepoDir
        s.Config.Version w1).1
      rw [hfail] at this
      exact this
    refine ⟨_, cause, hpk, errorfW_Error _ _, rfl, hun, ?_, ?_, ?_⟩
    · apply errorfW_Is_inner
      cases err with
      | new m => simp [GoErr.Unwrap] at hun
      | wrap m inner =>
        simp only [GoErr.Unwrap, Option.some.injEq] at hun
        subst hun
        simp [GoErr.Is, GoErr.Is_self]
    · exact hcause
    · rw [hpk]
      simp [packageCalls, packageCalls_append, hcalls1, hcalls2, callFor]
  · obtain ⟨-, -, -, hok, herr⟩ := packageLoop_spec d s.Config files w
    rw [PackageCharts_eq_loop d s w files hv hr]
    cases hres : (packageLoop d s.Config files w).1 with
    | ok u =>
      left
      obtain ⟨-, h2, -⟩ := hok hres
      exact ⟨rfl, by simpa [archives] using h2⟩
    | error e =>
      right
      obtain ⟨h1, ev, hev, hfail⟩ := herr e hres
      exact ⟨e, rfl, by simpa [archives] using h1, ev, List.mem_cons_of_mem _ hev, hfail⟩

/-- C2, at a source root whose second bundle fails to load: the pass stops at `c`, names
it, and never invokes `packageChart` on `b`. -/
theorem PackageCharts_aborts_at_first_failure_witness :
    ∃ final cause,
      (freshServer demoConfig).PackageCharts memDeps brokenFS
        = (.error final, ⟨brokenFS.dirs, brokenFS.sources, [("/repo/charts", "a-2.5.0.tgz")]⟩,
          .readDir "./charts/" ::
            ((packageChart memDeps "charts/a" "/repo/charts" "2.5.0" brokenFS).2.2 ++
              [.packageChart "charts/c" "/repo/charts" "2.5.0", .loadDir "charts/c" false])) ∧
      final.Error = "failed to package directory " ++ "c" ++ ": "
        ++ (errorfW "failed to load: " (GoErr.new "Chart.yaml file is missing") "").Error ∧
      final.Is cause = true ∧
      packageCalls ((freshServer demoConfig).PackageCharts memDeps brokenFS).2.2
        = [("charts/a", "/repo/charts", "2.5.0"), ("charts/c", "/repo/charts", "2.5.0")] :=
  have h := (PackageCharts_aborts_at_first_failure memDeps (freshServer demoConfig) brokenFS
    [⟨"a", true⟩, ⟨"c", true⟩, ⟨"b", true⟩] (by decide) (by decide)).1
    [⟨"a", true⟩] [⟨"b", true⟩] ⟨"c", true⟩
    ⟨brokenFS.dirs, brokenFS.sources, [("/repo/charts", "a-2.5.0.tgz")]⟩
    ⟨brokenFS.dirs, brokenFS.sources, [("/repo/charts", "a-2.5.0.tgz")]⟩
    (packageChart memDeps "charts/a" "/repo/charts" "2.5.0" brokenFS).2.2
    [.packageChart "charts/c" "/repo/charts" "2.5.0", .loadDir "charts/c" false]
    (errorfW "failed to load: " (GoErr.new "Chart.yaml file is missing") "")
    rfl (by decide) rfl (by decide)
  h.elim fun final h2 => h2.elim fun cause h3 =>
    ⟨final, cause, h3.1, h3.2.1, h3.2.2.2.2.1, h3.2.2.2.2.2.2⟩

/-- C3: when the bundle at `src` loads as the chart `ch`, `packageChart` hands
`chartutil.Save` exactly one chart, for the destination `dst`; that chart's metadata
version is the supplied `v` whatever `ch` declared, its name, its other metadata fields and
its files are those of `ch`, and `packageChart` succeeds with the archive name exactly when
that save does. Hence every chart saved during one `PackageCharts` run declares the
configured version and is saved into `RepoDir`. -/
theorem packageChart_stamps_version {σ ι : Type} (d : Deps σ ι) (src dst v : String) (w : σ)
    (ch : Chart) (hl : d.LoadDir src w = .ok ch) :
    (∃ saved, savedCharts (packageChart d src dst v w).2.2 = [(saved, dst)] ∧
      saved.Metadata.Version = v ∧ saved.Metadata.Name = ch.Metadata.Name ∧
      saved.Metadata.Other = ch.Metadata.Other ∧ saved.Files = ch.Files ∧
      (∀ name, (packageChart d src dst v w).1 = .ok name ↔ (d.Save saved dst w).1 = .ok name) ∧
      (packageChart d src dst v w).2.1 = (d.Save saved dst w).2) ∧
    (∀ (s : RepoServer) (w0 : σ), ∀ c ∈ savedCharts (s.PackageCharts d w0).2.2,
      c.1.Metadata.Version = s.Config.Version ∧ c.2 = s.Config.RepoDir) := by
  constructor
  · refine ⟨ch.setVersion v, ?_, rfl, rfl, rfl, rfl, ?_, ?_⟩
    all_goals
      unfold packageChart
      simp only [hl]
      cases hs : d.Save (ch.setVersion v) dst w with
      | mk res w1 => cases res <;> simp [savedCharts]
  · intro s w0 c hc
    unfold RepoServer.PackageCharts at hc
    cases hv : d.NewVersion s.Config.Version with
    | error e => simp [hv, savedCharts] at hc
    | ok u =>
      cases hr : d.ReadDir s.Config.ChartDir w0 with
      | error e => simp [hv, hr, savedCharts] at hc
      | ok files =>
        simp only [hv, hr, savedCharts] at hc
        exact (packageLoop_spec d s.Config files w0).2.1 c hc

/-- C3, at the bundle `a`, which declares version `0.1.0`: the chart saved declares
`2.5.0`. -/
theorem packageChart_stamps_version_witness :
    (demoChart "a" "0.1.0").Metadata.Version = "0.1.0" ∧
    ∃ saved, savedCharts (packageChart memDeps "charts/a" "/repo/charts" "2.5.0" demoFS).2.2
        = [(saved, "/repo/charts")] ∧
      saved.Metadata.Version = "2.5.0" ∧ saved.Metadata.Name = "a" :=
  have h := (packageChart_stamps_version memDeps "charts/a" "/repo/charts" "2.5.0" demoFS
    (demoChart "a" "0.1.0") (by decide)).1
  ⟨rfl, h.elim fun saved h2 => ⟨saved, h2.1, h2.2.1, h2.2.2.1⟩⟩

/-! ## Start-up: the claims -/

theorem parseFlags_error_iff (args : Flags) :
    (∃ err, parseFlags args = .error err) ↔
      (args.port.getD 3000 < 1024 ∨ args.port.getD 3000 > 65535) := by
  unfold parseFlags
  by_cases h : args.port.getD 3000 < 1024 ∨ args.port.getD 3000 > 65535
  · simp [h]
  · simp [h]

/-- C5: for every command line and every integer port `p` given on it, `parseFlags`
returns an error exactly when `p < 1024` or `p > 65535`, that error wraps
`errFlagParameterIllegalValue`, and otherwise it returns a configuration whose `Port` is
`p`; and on an out-of-range port `doMain` returns 1 having done nothing but log: the file
system is as before and no packaging, indexing or listening event occurs. -/
theorem parseFlags_port_range (args : Flags) (p : Int) :
    ((∃ err, parseFlags { args with port := some p } = .error err) ↔ (p < 1024 ∨ p > 65535)) ∧
    (∀ err, parseFlags { args with port := some p } = .error err →
      err.Is errFlagParameterIllegalValue = true) ∧
    (¬ (p < 1024 ∨ p > 65535) →
      ∃ cfg, parseFlags { args with port := some p } = .ok cfg ∧ cfg.Port = p) ∧
    ((p < 1024 ∨ p > 65535) →
      ∀ (σ ι : Type) (d : Deps σ ι) (env : MainEnv) (w : σ),
        env.args = { args with port := some p } →
        (doMain d env w).1 = some 1 ∧ (doMain d env w).2.1 = w ∧
        ∀ e ∈ (doMain d env w).2.2, ∃ line, e = .log line) := by
  refine ⟨?_, ?_, ?_, ?_⟩
  · simpa using parseFlags_error_iff { args with port := some p }
  · intro err h
    unfold parseFlags at h
    by_cases hp : p < 1024 ∨ p > 65535
    · simp only [Option.getD_some, hp, if_true, Except.error.injEq] at h
      subst h
      simp [errorfW, GoErr.Is, errFlagParameterIllegalValue]
    · simp [hp] at h
  · intro hp
    unfold parseFlags
    simp [hp]
  · intro hp σ ι d env w hargs
    obtain ⟨err, herr⟩ := (parseFlags_error_iff { args with port := some p }).2 (by simpa using hp)
    unfold doMain
    simp [hargs, herr]

/-- C5, at the ports 80 and 70000: `doMain` returns 1 and the file system is untouched. -/
theorem parseFlags_port_range_witness :
    ((doMain memDeps { demoEnv with args := { demoEnv.args with port := some 80 } } demoFS).1
        = some 1 ∧
      (doMain memDeps { demoEnv with args := { demoEnv.args with port := some 80 } } demoFS).2.1
        = demoFS) ∧
    ((doMain memDeps { demoEnv with args := { demoEnv.args with port := some 70000 } }
        demoFS).1 = some 1 ∧
      (doMain memDeps { demoEnv with args := { demoEnv.args with port := some 70000 } }
        demoFS).2.1 = demoFS) :=
  have h80 := (parseFlags_port_range demoEnv.args 80).2.2.2 (by decide) MemFS (List IndexEntry)
    memDeps { demoEnv with args := { demoEnv.args with port := some 80 } } demoFS rfl
  have h70000 := (parseFlags_port_range demoEnv.args 70000).2.2.2 (by decide) MemFS
    (List IndexEntry) memDeps { demoEnv with args := { demoEnv.args with port := some 70000 } }
    demoFS rfl
  ⟨⟨h80.1, h80.2.1⟩, ⟨h70000.1, h70000.2.1⟩⟩

theorem packageChart_events {σ ι : Type} (d : Deps σ ι) (src dst v : String) (w : σ) :
    ∀ ev ∈ (packageChart d src dst v w).2.2, ev.isPackaging = true := by
  unfold packageChart
  cases hl : d.LoadDir src w with
  | error err => simp [Event.isPackaging]
  | ok ch =>
    cases hs : d.Save (ch.setVersion v) dst w with
    | mk res w1 =>
      cases res <;>
      · simp only [hs]
        simp [Event.isPackaging]

theorem packageLoop_events {σ ι : Type} (d : Deps σ ι) (cfg : RepoConfig)
    (files : List FileInfo) (w : σ) :
    ∀ ev ∈ (packageLoop d cfg files w).2.2, ev.isPackaging = true := by
  induction files generalizing w with
  | nil => simp [packageLoop]
  | cons f fs ih =>
    cases hf : f.IsDir with
    | false =>
      rw [packageLoop_file d cfg f fs w hf]
      exact ih w
    | true =>
      have hpc := packageChart_events d (pathJoin cfg.ChartDir f.Name) cfg.RepoDir
        cfg.Version w
      cases hp : packageChart d (pathJoin cfg.ChartDir f.Name) cfg.RepoDir cfg.Version w with
      | mk res rest =>
        obtain ⟨w0, t0⟩ := rest
        rw [hp] at hpc
        cases res with
        | error err =>
          rw [packageLoop_dir_error d cfg f fs w w0 err t0 hf hp]
          exact hpc
        | ok name =>
          rw [packageLoop_dir_ok d cfg f fs w w0 name t0 hf hp]
          intro ev hev
          simp only [List.mem_append] at hev
          rcases hev with h | h
          · exact hpc ev h
          · exact ih w0 ev h

theorem PackageCharts_events {σ ι : Type} (d : Deps σ ι) (s : RepoServer) (w : σ) :
    ∀ ev ∈ (s.PackageCharts d w).2.2, ev.isPackaging = true := by
  unfold RepoServer.PackageCharts
  cases hv : d.NewVersion s.Config.Version with
  | error e => simp
  | ok u =>
    cases hr : d.ReadDir s.Config.ChartDir w with
    | error e => simp [Event.isPackaging]
    | ok files =>
      intro ev hev
      simp only [List.mem_cons] at hev
      rcases hev with h | h
      · simp [h, Event.isPackaging]
      · exact packageLoop_events d s.Config files w ev h

theorem PackageCharts_no_listen {σ ι : Type} (d : Deps σ ι) (s : RepoServer) (w : σ) :
    ∀ ev ∈ (s.PackageCharts d w).2.2, ev.isListen = false := by
  intro ev hev
  have h := PackageCharts_events d s w ev hev
  cases ev <;> simp_all [Event.isPackaging, Event.isListen]

theorem CreateIndex_no_listen {σ ι : Type} (d : Deps σ ι) (s : RepoServer) (w : σ) :
    ∀ ev ∈ (s.CreateIndex d w).2.2, ev.isListen = false := by
  unfold RepoServer.CreateIndex
  simp only
  split
  · simp [Event.isListen]
  · split <;> simp [Event.isListen]

/-- The function `NewRepoServer` in terms of its two fallible steps. -/
theorem NewRepoServer_cases {σ ι : Type} (d : Deps σ ι) (cfg : RepoConfig) (w : σ) :
    (∀ err, ((freshServer cfg).PackageCharts d w).1 = .error err →
      NewRepoServer d cfg w
        = (.error err, ((freshServer cfg).PackageCharts d w).2.1,
            ((freshServer cfg).PackageCharts d w).2.2)) ∧
    (((freshServer cfg).PackageCharts d w).1 = .ok () →
      (∀ err, ((freshServer cfg).CreateIndex d ((freshServer cfg).PackageCharts d w).2.1).1
          = .error err →
        NewRepoServer d cfg w
          = (.error err, ((freshServer cfg).PackageCharts d w).2.1,
              ((freshServer cfg).PackageCharts d w).2.2 ++
                ((freshServer cfg).CreateIndex d
                  ((freshServer cfg).PackageCharts d w).2.1).2.2)) ∧
      (((freshServer cfg).CreateIndex d ((freshServer cfg).PackageCharts d w).2.1).1 = .ok () →
        ∃ srv, NewRepoServer d cfg w
            = (.ok srv, ((freshServer cfg).PackageCharts d w).2.1,
                ((freshServer cfg).PackageCharts d w).2.2 ++
                  ((freshServer cfg).CreateIndex d
                    ((freshServer cfg).PackageCharts d w).2.1).2.2) ∧
          srv.Index = ((freshServer cfg).CreateIndex d
            ((freshServer cfg).PackageCharts d w).2.1).2.1.Index ∧
          srv.Config = cfg ∧ srv.locked = false ∧
          srv.Router = (((freshServer cfg).CreateIndex d
            ((freshServer cfg).PackageCharts d w).2.1).2.1.SetupRouter).2.Router ∧
          (srv.Server.map (fun x => x.Addr)) = some (":" ++ toString cfg.Port))) := by
  unfold NewRepoServer
  simp only [freshServer]
  rcases hp : RepoServer.PackageCharts d
    { locked := false, Index := [], Config := cfg, Server := none, Router := none } w
    with ⟨r1, w1, t1⟩
  cases r1 with
  | error e => simp
  | ok u =>
    simp only [true_implies, reduceCtorEq, false_implies, implies_true, true_and]
    rcases hc : RepoServer.CreateIndex d
      { locked := false, Index := [], Config := cfg, Server := none, Router := none } w1
      with ⟨r2, s2, t2⟩
    cases r2 with
    | error e => simp
    | ok u2 =>
      have hcfg : s2.Config = cfg ∧ s2.locked = false := by
        unfold RepoServer.CreateIndex at hc
        simp only at hc
        split at hc
        · simp at hc
        · split at hc
          · simp at hc
          · simp only [Prod.mk.injEq, true_and] at hc
            rw [← hc.1]
            simp
      simp [RepoServer.SetupRouter, hcfg.1, hcfg.2]

theorem NewRepoServer_no_listen {σ ι : Type} (d : Deps σ ι) (cfg : RepoConfig) (w : σ) :
    ∀ ev ∈ (NewRepoServer d cfg w).2.2, ev.isListen = false := by
  have h1 := PackageCharts_no_listen d (freshServer cfg) w
  have h2 := CreateIndex_no_listen d (freshServer cfg) ((freshServer cfg).PackageCharts d w).2.1
  unfold NewRepoServer
  simp only [freshServer] at h1 h2 ⊢
  rcases hp : RepoServer.PackageCharts d
    { locked := false, Index := [], Config := cfg, Server := none, Router := none } w
    with ⟨r1, w1, t1⟩
  rw [hp] at h1 h2
  cases r1 with
  | error e => simpa using h1
  | ok u =>
    dsimp only at h2 ⊢
    rcases hc : RepoServer.CreateIndex d
      { locked := false, Index := [], Config := cfg, Server := none, Router := none } w1
      with ⟨r2, s2, t2⟩
    rw [hc] at h2
    have h12 : ∀ ev ∈ t1 ++ t2, ev.isListen = false := by
      intro ev hev
      simp only [List.mem_append] at hev
      rcases hev with h | h
      · exact h1 ev h
      · exact h2 ev h
    cases r2 with
    | error e => simpa using h12
    | ok u2 => simpa [RepoServer.SetupRouter] using h12

/-- C9 as stated fails on a listener failure: when everything up to `NewRepoServer`
succeeds and `ListenAndServe` returns an error (the port is taken), the error is logged,
`doMain` still returns 0 once a signal arrives, and it never returns while none does. -/
theorem doMain_listener_failure_is_not_fatal :
    (doMain memDeps
      { demoEnv with
        ListenAndServe := some (GoErr.new "listen tcp :3000: bind: address already in use") }
      demoFS).1 = some 0 ∧
    Event.log "listen tcp :3000: bind: address already in use" ∈
      (doMain memDeps
        { demoEnv with
          ListenAndServe := some (GoErr.new "listen tcp :3000: bind: address already in use") }
        demoFS).2.2 ∧
    (doMain memDeps
      { demoEnv with
        ListenAndServe := some (GoErr.new "listen tcp :3000: bind: address already in use"),
        signal := none }
      demoFS).1 = none := by
  decide

/-- C9, amended: `doMain` returns 1, having only logged, when `parseFlags`,
`initKubeClient` or `getRouteDomain` fails; when those succeed and packaging or indexing
fails, `NewRepoServer` returns an error and no server, `doMain` returns 1 and
`ListenAndServe` is never started; and when `NewRepoServer` returns a server, the listener
is started and `doMain` returns 0 once a signal arrives, whatever `Shutdown` and
`ListenAndServe` return (their errors are only logged), and does not return before. -/
theorem doMain_exit_code {σ ι : Type} (d : Deps σ ι) (env : MainEnv) (w : σ) :
    (((∃ e, parseFlags env.args = .error e) ∨ (∃ e, initKubeClient env.kube = .error e) ∨
        (∃ e, getRouteDomain env.kube = .error e)) →
      (doMain d env w).1 = some 1 ∧ (doMain d env w).2.1 = w ∧
      ∀ ev ∈ (doMain d env w).2.2, ∃ line, ev = .log line) ∧
    (∀ cfg host, parseFlags env.args = .ok cfg → initKubeClient env.kube = .ok () →
      getRouteDomain env.kube = .ok host →
      (((∃ e, ((freshServer { cfg with Host := host }).PackageCharts d w).1 = .error e) ∨
          (((freshServer { cfg with Host := host }).PackageCharts d w).1 = .ok () ∧
            ∃ e, ((freshServer { cfg with Host := host }).CreateIndex d
              ((freshServer { cfg with Host := host }).PackageCharts d w).2.1).1 = .error e)) →
        ∃ e, (NewRepoServer d { cfg with Host := host } w).1 = .error e) ∧
      ((∃ e, (NewRepoServer d { cfg with Host := host } w).1 = .error e) →
        (doMain d env w).1 = some 1 ∧ ∀ ev ∈ (doMain d env w).2.2, ev.isListen = false) ∧
      (∀ srv, (NewRepoServer d { cfg with Host := host } w).1 = .ok srv →
        (∃ addr, .listenAndServe addr ∈ (doMain d env w).2.2) ∧
        (∀ sig, env.signal = some sig → (doMain d env w).1 = some 0) ∧
        (env.signal = none → (doMain d env w).1 = none))) := by
  constructor
  · intro h
    unfold doMain
    cases hp : parseFlags env.args with
    | error e => simp
    | ok cfg =>
      cases hk : initKubeClient env.kube with
      | error e => simp
      | ok u =>
        cases hg : getRouteDomain env.kube with
        | error e => simp
        | ok host => simp [hp, hk, hg] at h
  · intro cfg host hp hk hg
    have hcases := NewRepoServer_cases d { cfg with Host := host } w
    have hnl := NewRepoServer_no_listen d { cfg with Host := host } w
    refine ⟨?_, ?_, ?_⟩
    · rintro (⟨e, he⟩ | ⟨hok, e, he⟩)
      · exact ⟨e, by rw [hcases.1 e he]⟩
      · exact ⟨e, by rw [(hcases.2 hok).1 e he]⟩
    · rintro ⟨e, he⟩
      unfold doMain
      simp only [hp, hk, hg]
      rcases hN : NewRepoServer d { cfg with Host := host } w with ⟨r, w1, t1⟩
      rw [hN] at he hnl
      simp only at he
      subst he
      refine ⟨rfl, ?_⟩
      intro ev hev
      simp only [List.mem_append, List.mem_cons, List.mem_singleton, List.not_mem_nil,
        or_false] at hev
      rcases hev with (h | h) | h
      · rcases h with h | h <;> simp [h, Event.isListen]
      · exact hnl ev h
      · simp [h, Event.isListen]
    · intro srv hsrv
      unfold doMain
      simp only [hp, hk, hg]
      rcases hN : NewRepoServer d { cfg with Host := host } w with ⟨r, w1, t1⟩
      rw [hN] at hsrv
      simp only at hsrv
      subst hsrv
      refine ⟨⟨(match srv.Server with
          | some x => x.Addr
          | none => ""), ?_⟩, ?_, ?_⟩
      · cases hs : env.signal <;> simp
      · intro sig hs
        simp [hs]
      · intro hs
        simp [hs]

/-- C9 amended, at a run where packaging fails (the bundle `c` does not load) and at a run
where `Shutdown` returns an error: exit code 1 without a listener, and exit code 0. -/
theorem doMain_exit_code_witness :
    ((doMain memDeps demoEnv brokenFS).1 = some 1 ∧
      ∀ ev ∈ (doMain memDeps demoEnv brokenFS).2.2, ev.isListen = false) ∧
    (doMain memDeps { demoEnv with Shutdown := some (GoErr.new "context deadline exceeded") }
      demoFS).1 = some 0 :=
  ⟨((doMain_exit_code memDeps demoEnv brokenFS).2
      { ChartDir := "./charts/", RepoDir := "/repo/charts", Version := "2.5.0", Port := 3000,
        Host := "" } "host" (by decide) (by decide) (by decide)).2.1
      ⟨errorfW "failed to package directory c: "
        (errorfW "failed to load: " (GoErr.new "Chart.yaml file is missing") "") "",
        by decide⟩,
    ((doMain_exit_code memDeps
      { demoEnv with Shutdown := some (GoErr.new "context deadline exceeded") } demoFS).2
      { ChartDir := "./charts/", RepoDir := "/repo/charts", Version := "2.5.0", Port := 3000,
        Host := "" } "host" (by decide) (by decide) (by decide)).2.2
      (match NewRepoServer memDeps demoConfig demoFS with
        | (.ok srv, _, _) => srv
        | _ => freshServer demoConfig) (by decide) |>.2.1 "terminated" rfl⟩

/-! ## Serving: the claims -/

theorem cleanPath_index : cleanPath "/charts/index.yaml" = "/charts/index.yaml" := by decide

/-- The router `SetupRouter` builds sends the path `/charts/index.yaml` to
`loggingMiddleware(indexHandler)`. -/
theorem SetupRouter_index_route (s : RepoServer) (mux : ServeMux) (r : Request)
    (hmux : s.SetupRouter.2.Router = some mux) (hpath : r.Path = "/charts/index.yaml") :
    mux.Handler r = .loggingMiddleware .indexHandler := by
  simp only [RepoServer.SetupRouter, ServeMux.Handle, Option.some.injEq] at hmux
  subst hmux
  simp [ServeMux.Handler, ServeMux.shouldRedirect, ServeMux.pathMatch, hpath, cleanPath_index,
    List.find?]

/-- What `loggingMiddleware(indexHandler)` does on a fresh connection of a request that is
not a `HEAD`, in a server state whose lock is free. -/
theorem logged_indexHandler_run {σ : Type} (env : HttpEnv σ) (world : σ) (s : RepoServer)
    (r : Request) (hlock : s.locked = false) (hm : r.Method ≠ "HEAD") :
    (Handler.loggingMiddleware .indexHandler).ServeHTTP env world (.response (Conn.fresh r)) r s
      = some (.response { head := false, wroteHeader := true, status := 200, body := s.Index },
          s,
          [.lock, .write s.Index, .unlock,
            .log ("0" ++ " " ++ fmt3d (env.ElapsedMs r) ++ "ms " ++ r.RequestURI)]) := by
  have hs : ({ s with locked := false } : RepoServer) = s := by
    cases s
    simp_all
  simp [Handler.ServeHTTP, hlock, ResponseWriter.Write, Conn.Write, Conn.WriteHeader, Conn.fresh,
    bodyAllowedForStatus, hm, ResponseWriter.embedded, ResponseWriter.status, hs]
  rfl

/-- C7: for every server state whose lock is free and the router `SetupRouter` builds for
it, a `GET` of `/charts/index.yaml` is routed to `loggingMiddleware(indexHandler)`, not to
the file handler registered on `/charts/`; the reply has status 200 and a body equal to the
`Index` buffer; and the server state after the request is the state before it: same
`Index`, same configuration, lock released. -/
theorem index_request_returns_Index {σ : Type} (env : HttpEnv σ) (world : σ) (s : RepoServer)
    (mux : ServeMux) (uri : String) (hmux : s.SetupRouter.2.Router = some mux)
    (hlock : s.locked = false) (huri : uri ≠ "*") :
    mux.Handler { Method := "GET", Path := "/charts/index.yaml", RequestURI := uri }
      = .loggingMiddleware .indexHandler ∧
    mux.Handler { Method := "GET", Path := "/charts/index.yaml", RequestURI := uri }
      ≠ .loggingMiddleware (.StripPrefix "/charts/" (.FileServer s.Config.RepoDir)) ∧
    ∃ w1 s1 t,
      mux.ServeHTTP env world
          (.response (Conn.fresh { Method := "GET", Path := "/charts/index.yaml", RequestURI := uri }))
          { Method := "GET", Path := "/charts/index.yaml", RequestURI := uri } s
        = some (w1, s1, t) ∧
      w1.conn.status = 200 ∧ w1.conn.body = s.Index ∧
      s1 = s ∧ s1.Index = s.Index ∧ s1.Config = s.Config ∧ s1.locked = false := by
  have hroute := SetupRouter_index_route s mux
    { Method := "GET", Path := "/charts/index.yaml", RequestURI := uri } hmux rfl
  refine ⟨hroute, by rw [hroute]; simp, ?_⟩
  refine ⟨.response { head := false, wroteHeader := true, status := 200, body := s.Index }, s,
    [.lock, .write s.Index, .unlock,
      .log ("0" ++ " " ++ fmt3d (env.ElapsedMs
        { Method := "GET", Path := "/charts/index.yaml", RequestURI := uri }) ++ "ms " ++ uri)],
    ?_, ?_⟩
  · unfold ServeMux.ServeHTTP
    simp only [huri, if_false, hroute]
    exact logged_indexHandler_run env world s _ hlock (by simp)
  · simp [ResponseWriter.conn, hlock]

/-- C7, at the server built over the source root of the examples. -/
theorem index_request_returns_Index_witness :
    demoServer.Router = some demoRouter ∧
    ∃ w1 t,
      demoRouter.ServeHTTP demoHttp demoFS (.response (Conn.fresh getIndex)) getIndex demoServer
        = some (w1, demoServer, t) ∧
      w1.conn.status = 200 ∧ w1.conn.body = demoServer.Index :=
  have h := (index_request_returns_Index demoHttp demoFS demoServer demoRouter
    "/charts/index.yaml" (by decide) (by decide) (by decide)).2.2
  h.elim fun w1 h1 => h1.elim fun s1 h2 => h2.elim fun t h3 =>
    ⟨by decide, w1, t, h3.2.2.2.1 ▸ h3.1, h3.2.1, h3.2.2.1⟩

/-- C10, the code at `GET /charts/index.yaml`: `loggingMiddleware` delegates to
`indexHandler`, the client receives status 200 with the index as body, and the line logged
starts with the status 0: the `status` field of `StatusWriter` is set only by an explicit
`WriteHeader`, and `indexHandler` calls `Write` alone. -/
theorem loggingMiddleware_logs_zero_for_index :
    ∃ w1 t,
      demoRouter.ServeHTTP demoHttp demoFS (.response (Conn.fresh getIndex)) getIndex demoServer
        = some (w1, demoServer, t) ∧
      w1.conn.status = 200 ∧ w1.conn.body = demoServer.Index ∧
      t = [.lock, .write demoServer.Index, .unlock, .log "0   5ms /charts/index.yaml"] :=
  ⟨.response { head := false, wroteHeader := true, status := 200, body := demoServer.Index },
    [.lock, .write demoServer.Index, .unlock, .log "0   5ms /charts/index.yaml"],
    by decide, rfl, rfl, rfl⟩

/-! ## The index buffer and the lock -/

/-- C8, the code at an install over an output directory with the archives `a-1.0.0` and
`b-2.0.0`: `CreateIndex` succeeds and assigns to `Index` the serialisation of the index of
that directory, and it does so without holding the lock, its trace having no `Lock` at all;
whereas the read, `indexHandler` on the server so built, replies with that buffer between a
`Lock` and an `Unlock`. -/
theorem CreateIndex_assigns_without_lock :
    ((freshServer demoConfig).CreateIndex memDeps archivedFS).1 = .ok () ∧
    ((freshServer demoConfig).CreateIndex memDeps archivedFS).2.2
      = [.indexDirectory "/repo/charts" "https://host/charts", .marshal,
          .setIndex (strBytes
            "a-1.0.0 https://host/charts/a-1.0.0\nb-2.0.0 https://host/charts/b-2.0.0\n")] ∧
    specMarshal [⟨"a-1.0.0", "https://host/charts/a-1.0.0"⟩,
        ⟨"b-2.0.0", "https://host/charts/b-2.0.0"⟩]
      = .ok ((freshServer demoConfig).CreateIndex memDeps archivedFS).2.1.Index ∧
    assignsUnderLock false ((freshServer demoConfig).CreateIndex memDeps archivedFS).2.2 = false ∧
    Event.lock ∉ ((freshServer demoConfig).CreateIndex memDeps archivedFS).2.2 ∧
    (∃ w1 t,
      Handler.indexHandler.ServeHTTP demoHttp archivedFS (.response (Conn.fresh getIndex))
          getIndex ((freshServer demoConfig).CreateIndex memDeps archivedFS).2.1
        = some (w1, ((freshServer demoConfig).CreateIndex memDeps archivedFS).2.1, t) ∧
      t = [.lock, .write ((freshServer demoConfig).CreateIndex memDeps archivedFS).2.1.Index,
        .unlock] ∧
      readsUnderLock false t = true ∧
      w1.conn.body = ((freshServer demoConfig).CreateIndex memDeps archivedFS).2.1.Index) :=
  ⟨by decide, by decide, by decide, by decide, by decide,
    .response
      { head := false, wroteHeader := true, status := 200,
        body := ((freshServer demoConfig).CreateIndex memDeps archivedFS).2.1.Index },
    [.lock, .write ((freshServer demoConfig).CreateIndex memDeps archivedFS).2.1.Index, .unlock],
    by decide, rfl, by decide, rfl⟩

/-! ## Indexing: the claim -/

/-- C6: for every hostname and output directory, and whatever the indexer and the
serialiser are, `CreateIndex` calls the indexer on the cleaned `RepoDir` with the base URL
`"https://" ++ Host ++ "/charts"`, and it succeeds exactly when indexing and serialising do,
the `Index` buffer then being the serialisation of that index and nothing else of the
server changing. With the indexer of the specification the index has one entry per archive
file of the directory, each with the URL `baseURL ++ "/" ++ filename`; so with the archives
`a-1.0.0` and `b-2.0.0` and the host `host` the URLs are `https://host/charts/a-1.0.0` and
`https://host/charts/b-2.0.0`. -/
theorem CreateIndex_indexes_RepoDir_under_host_url :
    (∀ (σ ι : Type) (d : Deps σ ι) (s : RepoServer) (w : σ),
      (s.CreateIndex d w).2.2.head?
        = some (.indexDirectory (pathClean s.Config.RepoDir)
            ("https://" ++ s.Config.Host ++ "/charts")) ∧
      (∀ index indexBytes,
        d.IndexDirectory (pathClean s.Config.RepoDir) ("https://" ++ s.Config.Host ++ "/charts") w
          = .ok index →
        d.Marshal index = .ok indexBytes →
        (s.CreateIndex d w).1 = .ok () ∧ (s.CreateIndex d w).2.1 = { s with Index := indexBytes }) ∧
      ((s.CreateIndex d w).1 = .ok () →
        ∃ index,
          d.IndexDirectory (pathClean s.Config.RepoDir)
            ("https://" ++ s.Config.Host ++ "/charts") w = .ok index ∧
          d.Marshal index = .ok (s.CreateIndex d w).2.1.Index)) ∧
    (∀ (dir baseURL : String) (fs : MemFS),
      ∃ index, specIndexDirectory dir baseURL fs = .ok index ∧
        index.map (fun e => e.File) = (fs.out.filter (fun a => a.1 = dir)).map (fun a => a.2) ∧
        ∀ e ∈ index, e.URL = baseURL ++ "/" ++ e.File) ∧
    (∃ index,
      memDeps.IndexDirectory (pathClean demoConfig.RepoDir)
        ("https://" ++ "host" ++ "/charts") archivedFS = .ok index ∧
      index.map (fun e => e.URL)
        = ["https://host/charts/a-1.0.0", "https://host/charts/b-2.0.0"] ∧
      ((freshServer demoConfig).CreateIndex memDeps archivedFS).1 = .ok () ∧
      memDeps.Marshal index
        = .ok ((freshServer demoConfig).CreateIndex memDeps archivedFS).2.1.Index) := by
  refine ⟨?_, ?_, ?_⟩
  · intro σ ι d s w
    refine ⟨?_, ?_, ?_⟩
    · unfold RepoServer.CreateIndex
      simp only
      split
      · rfl
      · split <;> rfl
    · intro index indexBytes hi hm
      simp [RepoServer.CreateIndex, hi, hm]
    · intro hok
      unfold RepoServer.CreateIndex at hok ⊢
      simp only at hok ⊢
      split at hok
      · simp at hok
      · rename_i index hi
        rw [hi]
        split at hok
        · simp at hok
        · rename_i indexBytes hm
          exact ⟨index, rfl, by simp [hm]⟩
  · intro dir baseURL fs
    refine ⟨_, rfl, ?_, ?_⟩
    · simp [List.map_map, Function.comp_def]
    · intro e he
      simp only [List.map_map, List.mem_map] at he
      obtain ⟨a, -, rfl⟩ := he
      rfl
  · exact ⟨[⟨"a-1.0.0", "https://host/charts/a-1.0.0"⟩, ⟨"b-2.0.0", "https://host/charts/b-2.0.0"⟩],
      by decide, by decide, by decide, by decide⟩

/-- C6, at the output directory with the archives `a-1.0.0` and `b-2.0.0` and the host
`host`: the buffer installed is the serialisation of the index with those two URLs. -/
theorem CreateIndex_indexes_RepoDir_under_host_url_witness :
    ((freshServer demoConfig).CreateIndex memDeps archivedFS).1 = .ok () ∧
    ((freshServer demoConfig).CreateIndex memDeps archivedFS).2.1
      = { freshServer demoConfig with
          Index := strBytes "a-1.0.0 https://host/charts/a-1.0.0\nb-2.0.0 https://host/charts/b-2.0.0\n" } :=
  (CreateIndex_indexes_RepoDir_under_host_url.1 MemFS (List IndexEntry) memDeps
    (freshServer demoConfig) archivedFS).2.1
    [⟨"a-1.0.0", "https://host/charts/a-1.0.0"⟩, ⟨"b-2.0.0", "https://host/charts/b-2.0.0"⟩]
    (strBytes "a-1.0.0 https://host/charts/a-1.0.0\nb-2.0.0 https://host/charts/b-2.0.0\n")
    (by decide) (by decide)

/-! ## The version validator -/

theorem splitOnChar_ne_nil (sep : Char) (l : List Char) : splitOnChar sep l ≠ [] := by
  induction l with
  | nil => simp [splitOnChar]
  | cons c cs ih =>
    unfold splitOnChar
    split
    · simp
    · split <;> simp

theorem splitOnChar_cons_sep (sep : Char) (cs : List Char) :
    splitOnChar sep (sep :: cs) = [] :: splitOnChar sep cs := by
  have h := splitOnChar_ne_nil sep cs
  rw [splitOnChar]
  split
  · contradiction
  · rename_i x xs hx
    simp [hx]

theorem splitOnChar_cons_other (sep c : Char) (cs : List Char) (hc : c ≠ sep) :
    ∃ x xs, splitOnChar sep cs = x :: xs ∧ splitOnChar sep (c :: cs) = (c :: x) :: xs := by
  have h := splitOnChar_ne_nil sep cs
  rw [splitOnChar]
  split
  · contradiction
  · rename_i x xs hx
    exact ⟨x, xs, hx, by simp [hc]⟩

theorem joinWith_splitOnChar (sep : Char) (l : List Char) :
    joinWith sep (splitOnChar sep l) = l := by
  induction l with
  | nil => simp [splitOnChar, joinWith]
  | cons c cs ih =>
    by_cases hc : c = sep
    · subst hc
      rw [splitOnChar_cons_sep]
      obtain ⟨x, xs, hx⟩ := List.exists_cons_of_ne_nil (splitOnChar_ne_nil c cs)
      rw [hx] at ih ⊢
      simp [joinWith, ih]
    · obtain ⟨x, xs, hx, hcons⟩ := splitOnChar_cons_other sep c cs hc
      rw [hcons]
      rw [hx] at ih
      cases xs with
      | nil =>
        simp only [joinWith] at ih ⊢
        rw [ih]
      | cons y ys =>
        simp only [joinWith] at ih ⊢
        rw [← ih]
        simp

theorem splitOnChar_of_not_mem (sep : Char) (l : List Char) (h : sep ∉ l) :
    splitOnChar sep l = [l] := by
  induction l with
  | nil => simp [splitOnChar]
  | cons c cs ih =>
    have hc : c ≠ sep := fun e => h (by simp [e])
    obtain ⟨x, xs, hx, hcons⟩ := splitOnChar_cons_other sep c cs hc
    rw [hcons]
    rw [ih (fun hm => h (List.mem_cons_of_mem _ hm))] at hx
    simp only [List.cons.injEq] at hx
    rw [← hx.1, ← hx.2]

theorem splitOnChar_append (sep : Char) (a b : List Char) (h : sep ∉ a) :
    splitOnChar sep (a ++ sep :: b) = a :: splitOnChar sep b := by
  induction a with
  | nil => simp [splitOnChar_cons_sep]
  | cons c cs ih =>
    have hc : c ≠ sep := fun e => h (by simp [e])
    obtain ⟨x, xs, hx, hcons⟩ := splitOnChar_cons_other sep c (cs ++ sep :: b) hc
    rw [List.cons_append, hcons]
    rw [ih (fun hm => h (List.mem_cons_of_mem _ hm))] at hx
    simp only [List.cons.injEq] at hx
    rw [← hx.1, ← hx.2]

theorem splitOnChar_joinWith (sep : Char) (ids : List (List Char)) (hne : ids ≠ [])
    (h : ∀ i ∈ ids, sep ∉ i) : splitOnChar sep (joinWith sep ids) = ids := by
  induction ids with
  | nil => contradiction
  | cons a t ih =>
    cases t with
    | nil =>
      simp only [joinWith]
      exact splitOnChar_of_not_mem sep a (h a (by simp))
    | cons b t2 =>
      simp only [joinWith]
      rw [splitOnChar_append sep a _ (h a (by simp)),
        ih (by simp) (fun i hi => h i (List.mem_cons_of_mem _ hi))]

theorem cutAt_of_not_mem (sep : Char) (l : List Char) (h : sep ∉ l) :
    cutAt sep l = (l, none) := by
  induction l with
  | nil => rfl
  | cons c cs ih =>
    have hc : c ≠ sep := fun e => h (by simp [e])
    simp [cutAt, hc, ih (fun hm => h (List.mem_cons_of_mem _ hm))]

theorem cutAt_append (sep : Char) (a b : List Char) (h : sep ∉ a) :
    cutAt sep (a ++ sep :: b) = (a, some b) := by
  induction a with
  | nil => simp [cutAt]
  | cons c cs ih =>
    have hc : c ≠ sep := fun e => h (by simp [e])
    simp [cutAt, hc, ih (fun hm => h (List.mem_cons_of_mem _ hm))]

theorem cutAt_eq (sep : Char) (l : List Char) :
    l = (cutAt sep l).1 ++ (match (cutAt sep l).2 with
      | none => []
      | some b => sep :: b) := by
  induction l with
  | nil => simp [cutAt]
  | cons c cs ih =>
    by_cases hc : c = sep
    · simp [cutAt, hc]
    · simp only [cutAt, hc, if_false, List.cons_append, List.cons.injEq, true_and]
      exact ih

theorem isNumeric_chars (l : List Char) (h : isNumeric l = true) :
    '.' ∉ l ∧ '-' ∉ l ∧ '+' ∉ l := by
  simp only [isNumeric, Bool.and_eq_true, List.all_eq_true] at h
  refine ⟨fun hm => ?_, fun hm => ?_, fun hm => ?_⟩
  · exact absurd (h.2 _ hm) (by decide)
  · exact absurd (h.2 _ hm) (by decide)
  · exact absurd (h.2 _ hm) (by decide)

theorem isIdent_chars (l : List Char) (h : isIdent l = true) : '.' ∉ l ∧ '+' ∉ l := by
  simp only [isIdent, Bool.and_eq_true, List.all_eq_true] at h
  refine ⟨fun hm => ?_, fun hm => ?_⟩
  · exact absurd (h.2 _ hm) (by decide)
  · exact absurd (h.2 _ hm) (by decide)

theorem not_mem_joinWith (c sep : Char) (ids : List (List Char)) (hc : c ≠ sep)
    (h : ∀ i ∈ ids, c ∉ i) : c ∉ joinWith sep ids := by
  induction ids with
  | nil => simp [joinWith]
  | cons a t ih =>
    cases t with
    | nil => simpa [joinWith] using h a (by simp)
    | cons b t2 =>
      simp only [joinWith, List.mem_append, List.mem_cons, not_or]
      exact ⟨h a (by simp), hc, ih (fun i hi => h i (List.mem_cons_of_mem _ hi))⟩

/-- The tail of a version, read back: cutting at the mark gives the text before it and the
joined identifiers after it. -/
theorem cutAt_renderTail (mark : Char) (a : List Char) (tail : Option (List (List Char)))
    (h : mark ∉ a) :
    cutAt mark (a ++ renderTail mark tail) = (a, tail.map (joinWith '.')) := by
  cases tail with
  | none => simpa [renderTail] using cutAt_of_not_mem mark a h
  | some ids => simpa [renderTail] using cutAt_append mark a (joinWith '.' ids) h

theorem isDotted_joined (tail : Option (List (List Char)))
    (h : ∀ ids, tail = some ids → ids ≠ [] ∧ ∀ i ∈ ids, isIdent i = true) :
    isDotted (tail.map (joinWith '.')) = true := by
  cases tail with
  | none => rfl
  | some ids =>
    obtain ⟨hne, hid⟩ := h ids rfl
    simp only [Option.map, isDotted]
    rw [splitOnChar_joinWith '.' ids hne (fun i hi => (isIdent_chars i (hid i hi)).1)]
    simpa [List.all_eq_true] using hid

/-- Every well-formed version parses. -/
theorem parsesAsSemver_of_wellFormed (v : String) (h : WellFormedVersion v) :
    parsesAsSemver v.data = true := by
  obtain ⟨major, minor, patch, pre, build, hma, hmi, hpa, hpre, hbuild, hv⟩ := h
  obtain ⟨hma1, hma2, hma3⟩ := isNumeric_chars major hma
  obtain ⟨hmi1, hmi2, hmi3⟩ := isNumeric_chars minor hmi
  obtain ⟨hpa1, hpa2, hpa3⟩ := isNumeric_chars patch hpa
  have hcore_minus : '-' ∉ major ++ '.' :: (minor ++ '.' :: patch) := by
    simp [hma2, hmi2, hpa2]
  have hcore_plus : '+' ∉ major ++ '.' :: (minor ++ '.' :: patch) := by
    simp [hma3, hmi3, hpa3]
  have htail_plus : '+' ∉ renderTail '-' pre := by
    cases pre with
    | none => simp [renderTail]
    | some ids =>
      simp only [renderTail, List.mem_cons, not_or]
      exact ⟨by decide, not_mem_joinWith '+' '.' ids (by decide)
        (fun i hi => (isIdent_chars i ((hpre ids rfl).2 i hi)).2)⟩
  have hplus : '+' ∉ (major ++ '.' :: (minor ++ '.' :: patch)) ++ renderTail '-' pre := by
    simp only [List.mem_append, not_or]
    exact ⟨by simpa using hcore_plus, htail_plus⟩
  have hsplit : splitOnChar '.' (major ++ '.' :: (minor ++ '.' :: patch))
      = [major, minor, patch] := by
    rw [splitOnChar_append '.' major _ hma1, splitOnChar_append '.' minor _ hmi1,
      splitOnChar_of_not_mem '.' patch hpa1]
  unfold parsesAsSemver
  rw [hv, cutAt_renderTail '+' _ build hplus]
  simp only
  rw [cutAt_renderTail '-' _ pre hcore_minus]
  simp only [hsplit, hma, hmi, hpa, isDotted_joined pre hpre, isDotted_joined build hbuild,
    Bool.and_self]

theorem renderTail_split (mark : Char) (o : Option (List Char)) :
    renderTail mark (o.map (splitOnChar '.')) = (match o with
      | none => []
      | some b => mark :: b) := by
  cases o with
  | none => rfl
  | some b => simp [renderTail, joinWith_splitOnChar]

theorem isDotted_split (o : Option (List Char)) (h : isDotted o = true) :
    ∀ ids, o.map (splitOnChar '.') = some ids → ids ≠ [] ∧ ∀ i ∈ ids, isIdent i = true := by
  intro ids hids
  cases o with
  | none => simp at hids
  | some b =>
    simp only [Option.map, Option.some.injEq] at hids
    subst hids
    exact ⟨splitOnChar_ne_nil '.' b, by simpa [isDotted, List.all_eq_true] using h⟩

/-- Every version that parses is well-formed. -/
theorem wellFormed_of_parsesAsSemver (v : String) (h : parsesAsSemver v.data = true) :
    WellFormedVersion v := by
  unfold parsesAsSemver at h
  split at h
  · rename_i major minor patch hsplit
    simp only [Bool.and_eq_true] at h
    obtain ⟨⟨⟨⟨hma, hmi⟩, hpa⟩, hpre⟩, hbuild⟩ := h
    refine ⟨major, minor, patch, (cutAt '-' (cutAt '+' v.data).1).2.map (splitOnChar '.'),
      (cutAt '+' v.data).2.map (splitOnChar '.'), hma, hmi, hpa, isDotted_split _ hpre,
      isDotted_split _ hbuild, ?_⟩
    have hcore : (cutAt '-' (cutAt '+' v.data).1).1 = major ++ '.' :: (minor ++ '.' :: patch) := by
      have := joinWith_splitOnChar '.' (cutAt '-' (cutAt '+' v.data).1).1
      rw [hsplit] at this
      simpa [joinWith] using this.symm
    rw [renderTail_split, renderTail_split, ← hcore, ← cutAt_eq, ← cutAt_eq]
  · simp at h

/-- C4: against the validator of the specification, a version string passes exactly when
it is well formed (major.minor.patch, optionally a pre-release after `-`, optionally build
metadata after `+`) and fails with `InvalidVersion` otherwise; `abc` and `1.2` fail and
`2.5.0` passes. And whatever the validator is, when it fails `PackageCharts` returns its
error having done nothing: the file system is as before and the trace is empty, so no
directory was read and no bundle packaged; when it succeeds the next step is reading the
source directory. -/
theorem version_validation_precedes_packaging :
    (∀ v, semverNewVersion v = .ok () ↔ WellFormedVersion v) ∧
    (∀ v, ¬ WellFormedVersion v → semverNewVersion v = .error ErrInvalidSemVer) ∧
    semverNewVersion "abc" = .error ErrInvalidSemVer ∧
    semverNewVersion "1.2" = .error ErrInvalidSemVer ∧
    semverNewVersion "2.5.0" = .ok () ∧
    (∀ (σ ι : Type) (d : Deps σ ι) (s : RepoServer) (w : σ) (err : GoErr),
      d.NewVersion s.Config.Version = .error err →
      s.PackageCharts d w = (.error err, w, [])) ∧
    (∀ (σ ι : Type) (d : Deps σ ι) (s : RepoServer) (w : σ),
      d.NewVersion s.Config.Version = .ok () →
      (s.PackageCharts d w).2.2.head? = some (.readDir s.Config.ChartDir)) := by
  refine ⟨?_, ?_, by decide, by decide, by decide, ?_, ?_⟩
  · intro v
    constructor
    · intro h
      apply wellFormed_of_parsesAsSemver
      by_cases hp : parsesAsSemver v.data = true
      · exact hp
      · simp [semverNewVersion, hp] at h
    · intro h
      simp [semverNewVersion, parsesAsSemver_of_wellFormed v h]
  · intro v h
    by_cases hp : parsesAsSemver v.data = true
    · exact absurd (wellFormed_of_parsesAsSemver v hp) h
    · simp [semverNewVersion, hp]
  · intro σ ι d s w err h
    simp [RepoServer.PackageCharts, h]
  · intro σ ι d s w h
    unfold RepoServer.PackageCharts
    simp only [h]
    split
    · rfl
    · rfl

/-- C4, at the configured version `1.2` over the source root of the examples: the pass
fails with `InvalidVersion`, the file system is untouched and nothing was done. -/
theorem version_validation_precedes_packaging_witness :
    (freshServer { demoConfig with Version := "1.2" }).PackageCharts memDeps demoFS
      = (.error ErrInvalidSemVer, demoFS, []) :=
  version_validation_precedes_packaging.2.2.2.2.2.1 MemFS (List IndexEntry) memDeps
    (freshServer { demoConfig with Version := "1.2" }) demoFS ErrInvalidSemVer (by decide)

end HubRepo
